import Mathlib

/-!
Verification development for the investco statement-ingestion engine
(src/investco/pdf_parser.py and src/investco/models.py), as a shallow
embedding in Lean 4.

Money values are embedded as exact rationals (Python `Decimal` arithmetic on
the reachable inputs is exact fixed-point addition/subtraction, which the
rationals model faithfully).  Dates are embedded as integers (day ordinals);
the code only compares and copies them.  Python dicts holding the raw field
maps are embedded as association lists with prepend-on-assignment (lookup
finds the most recent binding, which is Python dict overwrite semantics for
the operations the code performs: membership test and item access).
Python exceptions are embedded with `Except`.
-/

namespace Investco

/-- Errors the Python code can raise while validating or parsing:
dict item access on a missing key (`KeyError`), arithmetic on a non-Decimal
value (`TypeError`), and `decimal.InvalidOperation` from `Decimal(...)` on a
malformed literal. -/
inductive PyErr where
  | keyError : PyErr
  | typeError : PyErr
  | invalidOp : PyErr
deriving DecidableEq

/-! ## Currency and decimal-literal parsing

`AnnuityStatementParser._parse_currency` (pdf_parser.py lines 214-226; the
same method is repeated verbatim in the TIAA, Valic, John Hancock and
M Holdings parsers) removes every occurrence of the single characters `$`
and `,` and applies `Decimal` to what is left.  We embed the `Decimal`
string constructor on its sign/digits/point fragment (the only fragment the
parsers can reach: no exponents, no `NaN`/`Infinity`, ASCII digits), failing
exactly where `Decimal` raises `InvalidOperation`: no digit at all, a stray
character, or a second decimal point. -/

/-- Numeric value of a list of ASCII digit characters read left to right
(the empty list reads as 0, as in `Decimal("12.")` where the fractional
digit list is empty). -/
def digitsVal (cs : List Char) : Nat :=
  cs.foldl (fun a c => a * 10 + (c.toNat - '0'.toNat)) 0

/-- The `Decimal` string constructor on the sign/digits/point fragment:
optional sign, integer digits, optional point followed by fraction digits,
with at least one digit overall; anything else raises.  The scan produces
the sign, the digit string's value and the number of fraction digits; the
rational value is assembled by `repVal`. -/
def pythonDecimalRep (cs : List Char) : Option (Bool × ℕ × ℕ) :=
  let isNeg : Bool := match cs with | c :: _ => c == '-' | [] => false
  let isPlus : Bool := match cs with | c :: _ => c == '+' | [] => false
  let body := if isNeg || isPlus then cs.tail else cs
  let ip := body.takeWhile Char.isDigit
  let rest := body.dropWhile Char.isDigit
  match rest with
  | [] => if ip.isEmpty then none else some (isNeg, digitsVal ip, 0)
  | '.' :: fr =>
      if fr.all Char.isDigit && !(ip.isEmpty && fr.isEmpty) then
        some (isNeg, digitsVal (ip ++ fr), fr.length)
      else none
  | _ => none

/-- The exact value of a scanned decimal literal: all its digits over a
power of ten, with the sign applied. -/
def repVal (r : Bool × ℕ × ℕ) : ℚ :=
  (if r.1 then -1 else 1) * (r.2.1 : ℚ) / (10 : ℚ) ^ r.2.2

/-- Embeds `Decimal(...)` on a list of characters. -/
def pythonDecimalChars (cs : List Char) : Option ℚ :=
  (pythonDecimalRep cs).map repVal

/-- The cleaning step `value_str.replace('$', '').replace(',', '')` deletes every occurrence
of the two single-character patterns: a filter. -/
def cleanChars (s : String) : List Char :=
  s.data.filter (fun c => !(c == '$' || c == ','))

/-- Embeds `_parse_currency`: strip dollar signs and commas, then `Decimal`. -/
def parseCurrency (s : String) : Option ℚ :=
  pythonDecimalChars (cleanChars s)

/-- The negative-net-change rule of `_parse_contract_summary`
(pdf_parser.py lines 186-190): the magnitude captured inside the
parenthesized variant `Net\s+Change\s+\(\$?([\d,]+\.\d{2})\)` is parsed by
`_parse_currency` and then negated. -/
def netChangeParenRule (capture : String) : Option ℚ :=
  (parseCurrency capture).map (fun q => -q)

/-- Shape of the regex capture group `([\d,]+\.\d{2})` used by every money
rule (after the calling rule strips an optional leading minus sign): one or
more digits-or-commas, a point, then exactly two digits.  Matched from the
head: a point must be followed by exactly two digits and end the string. -/
def twoDigits : List Char → Bool
  | [d1, d2] => d1.isDigit && d2.isDigit
  | _ => false

def amountCaptureTail : List Char → Bool
  | [] => false
  | c :: rest =>
      if c = '.' then twoDigits rest
      else (c.isDigit || c == ',') && amountCaptureTail rest

/-- A full string matching `[\d,]+\.\d{2}`: at least one digit-or-comma
before the point. -/
def isAmountCapture (s : String) : Bool :=
  match s.data with
  | [] => false
  | c :: rest => (c.isDigit || c == ',') && amountCaptureTail rest

/-! ## Raw field maps and the statement validators -/

/-- A value stored in a parser's `self.data` dict: a money `Decimal`, a
calendar date, a short identifier string, or Python `None` (the M Holdings
allocation fields are stored as `None` when unavailable). -/
inductive Value where
  | vMoney : ℚ → Value
  | vDate : ℤ → Value
  | vStr : String → Value
  | vNone : Value
deriving DecidableEq

/-- The raw field map `self.data`. -/
abbrev FieldMap := List (String × Value)

/-- Dict assignment `self.data[k] = v`: prepend; `List.lookup` finds the
newest binding, so this is overwrite semantics. -/
def fmInsert (k : String) (v : Value) (m : FieldMap) : FieldMap :=
  (k, v) :: m

/-- Dict membership test `k in self.data` / `k not in self.data`. -/
def hasField (m : FieldMap) (k : String) : Bool :=
  (m.lookup k).isSome

/-- Read a money field, or `none` when the key is absent or holds a
non-money value. -/
def getMoney (m : FieldMap) (k : String) : Option ℚ :=
  match m.lookup k with
  | some (Value.vMoney q) => some q
  | _ => none

/-- Dict item access `self.data[k]` inside the reconciliation arithmetic:
`KeyError` when absent, `TypeError` when the `+`/`-` operand is not a
`Decimal`. -/
def getMoneyE (m : FieldMap) (k : String) : Except PyErr ℚ :=
  match m.lookup k with
  | none => Except.error PyErr.keyError
  | some (Value.vMoney q) => Except.ok q
  | some _ => Except.error PyErr.typeError

/-- The default read `self.data.get(k, Decimal('0'))` used for `other_activity` in
`MHoldingsBrokerageParser.validate`: zero default when absent, `TypeError`
when present but not money. -/
def getMoneyD (m : FieldMap) (k : String) : Except PyErr ℚ :=
  match m.lookup k with
  | none => Except.ok 0
  | some (Value.vMoney q) => Except.ok q
  | some _ => Except.error PyErr.typeError

/-- A reconciliation-mismatch warning.  The Python code appends one
formatted string carrying the expected ending value, the ending value the
PDF shows, and their absolute difference; we embed the carried triple. -/
structure RWarning where
  expected : ℚ
  actual : ℚ
  difference : ℚ
deriving DecidableEq

/-- The dict `{'errors': [...], 'warnings': [...]}` a validator returns.
An error is embedded by the name of the missing required field (the Python
message is the fixed text `"Missing required field: "` plus that name). -/
structure VResult where
  errors : List String
  warnings : List RWarning
deriving DecidableEq

/-- Required fields of the Family A validators
(`AnnuityStatementParser.validate`, repeated verbatim in
`TIAAStatementParser.validate` and `ValicStatementParser.validate`). -/
def requiredA : List String :=
  ["statement_date", "period_start", "period_end",
   "beginning_value", "ending_value",
   "premiums", "withdrawals", "tax_withholding", "net_change"]

/-- Required fields of `JohnHancock401kParser.validate`. -/
def requiredB : List String :=
  ["statement_date", "period_start", "period_end",
   "beginning_value", "ending_value",
   "employee_contributions", "employer_contributions",
   "investment_gain_loss", "withdrawals", "fees", "loan_payments"]

/-- Required fields of `MHoldingsBrokerageParser.validate`. -/
def requiredC : List String :=
  ["statement_date", "beginning_value", "ending_value",
   "deposits", "withdrawals", "dividends", "interest",
   "market_change", "fees"]

/-- The missing-required-field loop shared by all validators: one error per
required field absent from the map, in required-list order. -/
def missingFields (req : List String) (m : FieldMap) : List String :=
  req.filter (fun f => !(hasField m f))

/-- Reconciliation step of the Family A validators, reached only when no
required field is missing.  Operands are fetched in the order the Python
expression evaluates them. -/
def reconcileA (m : FieldMap) : Except PyErr (List RWarning) := do
  let b ← getMoneyE m "beginning_value"
  let p ← getMoneyE m "premiums"
  let n ← getMoneyE m "net_change"
  let w ← getMoneyE m "withdrawals"
  let t ← getMoneyE m "tax_withholding"
  let expected := b + p + n - w - t
  let e ← getMoneyE m "ending_value"
  let difference := |e - expected|
  pure (if 1 < difference then [⟨expected, e, difference⟩] else [])

/-- Embeds `AnnuityStatementParser.validate` (pdf_parser.py lines 228-272); the
TIAA and Valic validators are verbatim copies. -/
def validateA (m : FieldMap) : Except PyErr VResult :=
  let errors := missingFields requiredA m
  if errors.isEmpty then
    (reconcileA m).map (fun ws => ⟨[], ws⟩)
  else Except.ok ⟨errors, []⟩

/-- Reconciliation step of `JohnHancock401kParser.validate`. -/
def reconcileB (m : FieldMap) : Except PyErr (List RWarning) := do
  let b ← getMoneyE m "beginning_value"
  let emp ← getMoneyE m "employee_contributions"
  let er ← getMoneyE m "employer_contributions"
  let g ← getMoneyE m "investment_gain_loss"
  let lp ← getMoneyE m "loan_payments"
  let w ← getMoneyE m "withdrawals"
  let f ← getMoneyE m "fees"
  let expected := b + emp + er + g + lp - w - f
  let e ← getMoneyE m "ending_value"
  let difference := |e - expected|
  pure (if 1 < difference then [⟨expected, e, difference⟩] else [])

/-- Embeds `JohnHancock401kParser.validate` (pdf_parser.py lines 937-979). -/
def validateB (m : FieldMap) : Except PyErr VResult :=
  let errors := missingFields requiredB m
  if errors.isEmpty then
    (reconcileB m).map (fun ws => ⟨[], ws⟩)
  else Except.ok ⟨errors, []⟩

/-- Reconciliation step of `MHoldingsBrokerageParser.validate`.  Note that
`capital_gains` is read with plain item access although it is not in the
required-field list, and `other_activity` is read with a zero default. -/
def reconcileC (m : FieldMap) : Except PyErr (List RWarning) := do
  let b ← getMoneyE m "beginning_value"
  let dep ← getMoneyE m "deposits"
  let w ← getMoneyE m "withdrawals"
  let dv ← getMoneyE m "dividends"
  let i ← getMoneyE m "interest"
  let cg ← getMoneyE m "capital_gains"
  let mc ← getMoneyE m "market_change"
  let oa ← getMoneyD m "other_activity"
  let f ← getMoneyE m "fees"
  let expected := b + dep - w + dv + i + cg + mc + oa - f
  let e ← getMoneyE m "ending_value"
  let difference := |e - expected|
  pure (if 1 < difference then [⟨expected, e, difference⟩] else [])

/-- Embeds `MHoldingsBrokerageParser.validate` (pdf_parser.py lines 1301-1344). -/
def validateC (m : FieldMap) : Except PyErr VResult :=
  let errors := missingFields requiredC m
  if errors.isEmpty then
    (reconcileC m).map (fun ws => ⟨[], ws⟩)
  else Except.ok ⟨errors, []⟩

/-! ## The statement history: chain verifier and batch gap finder

`Statement` (models.py) is a polymorphic model: every row carries a
`statement_date`; a row is an `AnnuityStatement` exactly when
`hasattr(row, 'annuitystatement')` holds, in which case it exposes
`beginning_value` and `ending_value` (Django keeps these in the same row,
so the annuity sub-record shares the parent's date).  `DecimalField`
attributes of an unsaved instance can be `None`, and the chain properties
guard for that, so the two balances are embedded as `Option ℚ`. -/

/-- The balances of the `AnnuityStatement` sub-record. -/
structure AnnuityVals where
  beginning_value : Option ℚ
  ending_value : Option ℚ
deriving DecidableEq

/-- One row of `investment.statements`: its date, and the annuity
sub-record when the row is an `AnnuityStatement`. -/
structure StatementRow where
  statement_date : ℤ
  annuity : Option AnnuityVals
deriving DecidableEq

/-- Embeds `investment.statements.filter(statement_date__lt=d).order_by('-statement_date').first()`:
among the rows strictly before `d`, one with the maximal date (the first
one encountered, when dates tie). -/
def previousStatement (d : ℤ) (rows : List StatementRow) : Option StatementRow :=
  (rows.filter (fun r => r.statement_date < d)).foldl
    (fun acc r =>
      match acc with
      | none => some r
      | some a => if a.statement_date < r.statement_date then some r else acc)
    none

/-- Embeds `AnnuityStatement.chains_with_previous` (models.py lines 887-902) for a
candidate with date `d` and beginning value `b?`, against the investment's
statement rows.  Python returns `True`/`None`/`False`, embedded as
`some true` / `none` / `some false`. -/
def chainsWithPrevious (d : ℤ) (b? : Option ℚ) (rows : List StatementRow) :
    Option Bool :=
  match previousStatement d rows with
  | none => some true
  | some prev =>
      match prev.annuity with
      | none => none
      | some pa =>
          match b?, pa.ending_value with
          | some b, some e => some (decide (|b - e| < 1 / 100))
          | _, _ => none

/-- Embeds `AnnuityStatement.chain_gap` (models.py lines 904-915): the signed
difference between the candidate's beginning value and the predecessor's
ending value, `None` when there is no comparable predecessor or a balance
is missing. -/
def chainGap (d : ℤ) (b? : Option ℚ) (rows : List StatementRow) : Option ℚ :=
  match previousStatement d rows with
  | none => none
  | some prev =>
      match prev.annuity with
      | none => none
      | some pa =>
          match b?, pa.ending_value with
          | some b, some e => some (b - e)
          | _, _ => none

/-- One entry of the list `Annuity.get_statement_gaps` returns. -/
structure GapEntry where
  statement_date : ℤ
  previous_date : ℤ
  gap_amount : ℚ
  previous_ending : ℚ
  current_beginning : ℚ
deriving DecidableEq

/-- Date comparison used by `order_by('statement_date')`. -/
def dateLe (a b : StatementRow) : Prop :=
  a.statement_date ≤ b.statement_date

instance : DecidableRel dateLe := fun _ _ => Int.decLe _ _

instance : IsTotal StatementRow dateLe :=
  ⟨fun a b => Int.le_total a.statement_date b.statement_date⟩

instance : IsTrans StatementRow dateLe :=
  ⟨fun _ _ _ hab hbc => Int.le_trans hab hbc⟩

/-- Body of the `for i in range(1, len(statements))` loop of
`get_statement_gaps`, carrying the previous row: when both adjacent rows
are annuity statements, subtract the balances (Python raises `TypeError`
if one is `None`) and record a gap entry when the absolute difference is
at least one cent. -/
def gapsLoop : StatementRow → List StatementRow → Except PyErr (List GapEntry)
  | _, [] => Except.ok []
  | prev, curr :: rest => do
      let head ←
        match prev.annuity, curr.annuity with
        | some pa, some ca =>
            match ca.beginning_value, pa.ending_value with
            | some b, some e =>
                Except.ok
                  (if 1 / 100 ≤ |b - e| then
                    [⟨curr.statement_date, prev.statement_date, b - e, e, b⟩]
                  else [])
            | _, _ => Except.error PyErr.typeError
        | _, _ => Except.ok []
      let tail ← gapsLoop curr rest
      pure (head ++ tail)

/-- Embeds `Annuity.get_statement_gaps` (models.py lines 411-439): sort the
investment's statements by ascending date, then walk adjacent pairs. -/
def getStatementGaps (rows : List StatementRow) : Except PyErr (List GapEntry) :=
  match List.insertionSort dateLe rows with
  | [] => Except.ok []
  | s :: rest => gapsLoop s rest

/-- Written from the spec, for comparison with `getStatementGaps`: the gap
entry an adjacent pair contributes, or `none` if both rows are not of
comparable annuity shape or the difference is within one cent. -/
def specGapEntry (p : StatementRow × StatementRow) : Option GapEntry :=
  match p.1.annuity, p.2.annuity with
  | some pa, some ca =>
      match ca.beginning_value, pa.ending_value with
      | some b, some e =>
          if 1 / 100 ≤ |b - e| then
            some ⟨p.2.statement_date, p.1.statement_date, b - e, e, b⟩
          else none
      | _, _ => none
  | _, _ => none

/-! ## Derived-activity generator

`AnnuityStatement.save` / `_create_transactions` (models.py lines 917-986).
The period-activity columns are `NOT NULL` with default 0, so they are
embedded as plain rationals.  The transaction date is the statement date at
midnight; we embed the day. -/

/-- The period-activity fields of a saved annuity statement, with its
primary key and owning investment. -/
structure AnnStmtRec where
  id : ℕ
  investment : ℕ
  statement_date : ℤ
  premiums : ℚ
  withdrawals : ℚ
  tax_withholding : ℚ
  net_change : ℚ
deriving DecidableEq

/-- A `Transaction` row as `_create_transactions` builds it. -/
structure Txn where
  investment : ℕ
  transaction_type : String
  amount : ℚ
  date : ℤ
  notes : String
  source_statement : ℕ
deriving DecidableEq

/-- One generated transaction: the statement's investment and date, the
given type and amount, tagged with the source statement. -/
def mkTxn (s : AnnStmtRec) (ty : String) (amt : ℚ) : Txn :=
  ⟨s.investment, ty, amt, s.statement_date,
   "From statement " ++ toString s.statement_date, s.id⟩

/-- Embeds `AnnuityStatement._create_transactions`: a premium, withdrawal or
tax-withholding transaction only for a strictly positive field, a
net-change transaction for a non-zero field, in source order. -/
def createTransactions (s : AnnStmtRec) : List Txn :=
  (if 0 < s.premiums then [mkTxn s "PREMIUM" s.premiums] else []) ++
  (if 0 < s.withdrawals then [mkTxn s "WITHDRAWAL" s.withdrawals] else []) ++
  (if 0 < s.tax_withholding then [mkTxn s "TAX_WITHHOLDING" s.tax_withholding] else []) ++
  (if s.net_change ≠ 0 then [mkTxn s "NET_CHANGE" s.net_change] else [])

/-- Embeds `AnnuityStatement.save` acting on the transaction table: when the
statement is an update (`self.pk` was not `None`), first delete every
transaction whose `source_statement` is this statement, then append the
freshly created ones. -/
def saveStatement (db : List Txn) (s : AnnStmtRec) (isNew : Bool) : List Txn :=
  (if isNew then db else db.filter (fun t => t.source_statement ≠ s.id)) ++
    createTransactions s

/-! ## Text recovery pipeline

Each parser's `parse` method obtains text from pdfplumber, falls back to
PyPDF2 and then to OCR, gated by `not text or len(text.strip()) < 100`; the
extraction library results are inputs here.  A text-layer extractor can
return `None` (`Option String`); the OCR helper returns `""` on failure
(plain `String`).  Python `str.strip()` removes leading and trailing ASCII
whitespace (the documents are ASCII), so the gate measures the length after
trimming both ends - whitespace in the middle counts. -/

/-- The six ASCII characters Python treats as whitespace. -/
def isPySpace (c : Char) : Bool :=
  c == ' ' || c == '\t' || c == '\n' || c == '\r' || c == '\x0b' || c == '\x0c'

/-- Embeds `len(text.strip())`: length after dropping leading and trailing
whitespace. -/
def strippedLen (s : String) : ℕ :=
  ((s.data.dropWhile isPySpace).reverse.dropWhile isPySpace).length

/-- The quality gate `not (not text or len(text.strip()) < 100)` on one
stage's text. -/
def usableText (s : String) : Bool :=
  decide (100 ≤ strippedLen s)

/-- The gate on an extractor result that may be `None`. -/
def usableOpt : Option String → Bool
  | none => false
  | some s => usableText s

/-- Written from the spec, for comparison with the gate the code uses: the
count of non-whitespace characters of a string. -/
def nonWhitespaceCount (s : String) : ℕ :=
  (s.data.filter (fun c => !(isPySpace c))).length

/-- The staged fallback of `AnnuityStatementParser.parse` (pdf_parser.py
lines 42-63; the Valic, John Hancock and M Holdings parsers follow the same
scheme): keep the pdfplumber text if it passes the gate, otherwise take the
PyPDF2 text, otherwise the OCR text; raise `ExtractionFailure` when the
final text still fails the gate. -/
def recoverTextStaged (plumber pypdf : Option String) (ocr : String) :
    Except Unit String :=
  let t2 := if usableOpt plumber then plumber else pypdf
  let t3 : String := if usableOpt t2 then t2.getD "" else ocr
  if usableText t3 then Except.ok t3 else Except.error ()

/-- Embeds `TIAAStatementParser.parse` (pdf_parser.py lines 282-312): OCR always
runs first; the text layer (pdfplumber, falling back to PyPDF2 under the
same gate) is then concatenated after the OCR text with a newline, and the
gate is applied to the concatenation only. -/
def recoverTextTIAA (ocr : String) (plumber pypdf : Option String) :
    Except Unit String :=
  let reg := if usableOpt plumber then plumber else pypdf
  let text := ocr ++ "\n" ++ reg.getD ""
  if usableText text then Except.ok text else Except.error ()

/-! ## Format classifier

`_detect_statement_type` (pdf_parser.py lines 1347-1421) runs
case-insensitive `re.search` tests whose patterns are literal words
separated by `\s+` (plus a few presence tests of plain substrings and
optional characters, expanded below into equivalent substring
disjunctions).  Case-insensitivity is embedded by lowercasing the text and
writing the patterns in lowercase (the signature tokens are ASCII). -/

/-- Consume one-or-more whitespace characters (`\s+`); the following
pattern token starts with a non-whitespace character, so consuming
greedily is exact. -/
def dropWSPlus : List Char → Option (List Char)
  | [] => none
  | c :: rest => if isPySpace c then some (rest.dropWhile isPySpace) else none

/-- Match, anchored at the head of `cs`, a pattern made of literal tokens
separated by `\s+`. -/
def matchToks : List (List Char) → List Char → Bool
  | [], _ => true
  | t :: ts, cs =>
      t.isPrefixOf cs &&
        (match ts with
         | [] => true
         | _ :: _ =>
             match dropWSPlus (cs.drop t.length) with
             | some cs2 => matchToks ts cs2
             | none => false)

/-- Embeds `re.search`: the token pattern matches at some position of `cs`. -/
def searchToks (ts : List (List Char)) : List Char → Bool
  | [] => matchToks ts []
  | c :: rest => matchToks ts (c :: rest) || searchToks ts rest

/-- Presence of a `\s+`-separated word pattern in the lowercased text. -/
def hasPat (low : String) (pat : List String) : Bool :=
  searchToks (pat.map String.data) low.data

/-- Signature `M\s+Holdings` or `M\s+Financial\s+Holdings`. -/
def sigMHoldings (low : String) : Bool :=
  hasPat low ["m", "holdings"] || hasPat low ["m", "financial", "holdings"]

/-- Signature (`John\s+Hancock` or `johnhancock\.com`) and (`401\(?k\)?` - present
iff the substring `401(k` or `401k` is - or `Retirement\s+Plan` or
`Profit\s+Sharing\s+Plan` or (`Participant` and `Contributions?` - the
optional `s` makes this the substring `contribution`)). -/
def sigJohnHancock401k (low : String) : Bool :=
  (hasPat low ["john", "hancock"] || hasPat low ["johnhancock.com"]) &&
  (hasPat low ["401(k"] || hasPat low ["401k"] ||
   hasPat low ["retirement", "plan"] ||
   hasPat low ["profit", "sharing", "plan"] ||
   (hasPat low ["participant"] && hasPat low ["contribution"]))

/-- Signature `Corebridge` or `VALIC`. -/
def sigValic (low : String) : Bool :=
  hasPat low ["corebridge"] || hasPat low ["valic"]

/-- Signature `TIAA` or `CREF`. -/
def sigTiaa (low : String) : Bool :=
  hasPat low ["tiaa"] || hasPat low ["cref"]

/-- Signature `Jackson` or `Contract\s+Number`. -/
def sigJackson (low : String) : Bool :=
  hasPat low ["jackson"] || hasPat low ["contract", "number"]

/-- Embeds `_detect_statement_type` given the recovered detection text: the guard
`not text or len(text.strip()) < 50` yields `"unknown"`, then the vendor
checks run in source order and the first match wins. -/
def detectStatementType (text : String) : String :=
  if strippedLen text < 50 then "unknown"
  else
    let low := text.toLower
    if sigMHoldings low then "mholdings"
    else if sigJohnHancock401k low then "johnhancock401k"
    else if sigValic low then "valic"
    else if sigTiaa low then "tiaa"
    else if sigJackson low then "jackson"
    else "unknown"

/-- Written from the spec, for comparison with `detectStatementType`: the
ordered list of vendor-signature checks with their tags. -/
def signatureChecks : List ((String → Bool) × String) :=
  [(sigMHoldings, "mholdings"),
   (sigJohnHancock401k, "johnhancock401k"),
   (sigValic, "valic"),
   (sigTiaa, "tiaa"),
   (sigJackson, "jackson")]

/-- Written from the spec, for comparison with `detectStatementType`:
return the tag of the first matching check of the fixed ordered sequence,
`"unknown"` when the sequence is exhausted or usable text is missing. -/
def classifySpec (text : String) : String :=
  if strippedLen text < 50 then "unknown"
  else
    match signatureChecks.find? (fun p => p.1 text.toLower) with
    | some p => p.2
    | none => "unknown"

/-- The five field-extractor implementations `parse_statement` can
construct. -/
inductive ParserKind where
  | jackson : ParserKind
  | tiaa : ParserKind
  | valic : ParserKind
  | johnHancock401k : ParserKind
  | mholdings : ParserKind
deriving DecidableEq

/-- The dispatch of `parse_statement` (pdf_parser.py lines 1424-1456): any
tag outside the four specific ones - in particular `"unknown"` - selects
the default `AnnuityStatementParser` (Jackson) instead of failing. -/
def selectParser (tag : String) : ParserKind :=
  if tag == "mholdings" then ParserKind.mholdings
  else if tag == "johnhancock401k" then ParserKind.johnHancock401k
  else if tag == "valic" then ParserKind.valic
  else if tag == "tiaa" then ParserKind.tiaa
  else if tag == "jackson" then ParserKind.jackson
  else ParserKind.jackson

/-! ## M Holdings field extraction

`MHoldingsBrokerageParser` (pdf_parser.py lines 982-1299).  The regex
searches over the recovered text are external to the dict-building logic
the claims are about, so each search's outcome (whether it matched, and
the text of capture group 1) is an input, collected in `MHOracle`; the
method bodies are translated statement by statement over these outcomes.
`strptime` results are likewise inputs (`none` embeds a `ValueError`). -/

/-- Outcomes of the regex searches and date parses `parse` performs, in
source order. -/
structure MHOracle where
  accountCap : Option String
  periodDates : Option (Option ℤ × Option ℤ)
  asOfDate : Option (Option ℤ)
  beginningCap : Option String
  endingCap1 : Option String
  endingCap2 : Option String
  additionsPosCap : Option String
  additionsParenCap : Option String
  incomeCap : Option String
  incomeSectionFound : Bool
  dividendCap : Option String
  interestCap : Option String
  changeSignedCap : Option String
  changeParenCap : Option String
  feePosCap : Option String
  feeParenCap : Option String
  miscSignedCap : Option String
  miscParenCap : Option String
  allocationFound : Bool
  moneyMarketPctCap : Option String
  equitiesPctCap : Option String
  fixedIncomePctCap : Option String

/-- Embeds `_parse_currency` as an expression that raises on a malformed capture. -/
def pcE (s : String) : Except PyErr ℚ :=
  match parseCurrency s with
  | some q => Except.ok q
  | none => Except.error PyErr.invalidOp

/-- Embeds `Decimal(...)` applied directly (the allocation percentages are not run
through `_parse_currency`). -/
def pyDecE (s : String) : Except PyErr ℚ :=
  match pythonDecimalChars s.data with
  | some q => Except.ok q
  | none => Except.error PyErr.invalidOp

/-- Embeds `Decimal.quantize(Decimal('0.01'))` with the default
`ROUND_HALF_EVEN` rounding: round to cents, ties to the even cent. -/
def quantizeCents (q : ℚ) : ℚ :=
  let x := q * 100
  let f : ℤ := ⌊x⌋
  let r := x - (f : ℚ)
  let n : ℤ :=
    if r < 1 / 2 then f
    else if 1 / 2 < r then f + 1
    else if f % 2 = 0 then f else f + 1
  (n : ℚ) / 100

/-- Embeds `_parse_account_info`: store the account number when its pattern
matched. -/
def mhStepAccount (o : MHOracle) (m : FieldMap) : FieldMap :=
  match o.accountCap with
  | some c => fmInsert "account_number" (Value.vStr c) m
  | none => m

/-- Embeds `_parse_period_dates`: on a period match, assign the three date fields
one by one inside `try` - a `ValueError` from either `strptime` skips the
assignments that follow it; then the `AS OF` fallback fills
`statement_date` and `period_end` only when `statement_date` is still
absent. -/
def mhStepPeriod (o : MHOracle) (m : FieldMap) : FieldMap :=
  let m1 :=
    match o.periodDates with
    | none => m
    | some (ps?, pe?) =>
        match ps? with
        | none => m
        | some ps =>
            let ma := fmInsert "period_start" (Value.vDate ps) m
            match pe? with
            | none => ma
            | some pe =>
                fmInsert "statement_date" (Value.vDate pe)
                  (fmInsert "period_end" (Value.vDate pe) ma)
  if hasField m1 "statement_date" then m1
  else
    match o.asOfDate with
    | some (some d) =>
        fmInsert "period_end" (Value.vDate d)
          (fmInsert "statement_date" (Value.vDate d) m1)
    | _ => m1

/-- Beginning value: the matched amount, defaulting to zero. -/
def mhStepBeginning (o : MHOracle) (m : FieldMap) : Except PyErr FieldMap :=
  match o.beginningCap with
  | some c => do
      let q ← pcE c
      pure (fmInsert "beginning_value" (Value.vMoney q) m)
  | none => pure (fmInsert "beginning_value" (Value.vMoney 0) m)

/-- Ending value: the `AS OF` pattern, then the date-free pattern; left
absent when neither matched. -/
def mhStepEnding (o : MHOracle) (m : FieldMap) : Except PyErr FieldMap :=
  match o.endingCap1 with
  | some c => do
      let q ← pcE c
      pure (fmInsert "ending_value" (Value.vMoney q) m)
  | none =>
      match o.endingCap2 with
      | some c => do
          let q ← pcE c
          pure (fmInsert "ending_value" (Value.vMoney q) m)
      | none => pure m

/-- The `Additions and Withdrawals` line: a plain amount is net deposits, a
parenthesized amount is net withdrawals, otherwise both are zero. -/
def mhStepAdditions (o : MHOracle) (m : FieldMap) : Except PyErr FieldMap :=
  match o.additionsPosCap with
  | some c => do
      let q ← pcE c
      pure (fmInsert "withdrawals" (Value.vMoney 0)
        (fmInsert "deposits" (Value.vMoney q) m))
  | none =>
      match o.additionsParenCap with
      | some c => do
          let q ← pcE c
          pure (fmInsert "withdrawals" (Value.vMoney q)
            (fmInsert "deposits" (Value.vMoney 0) m))
      | none =>
          pure (fmInsert "withdrawals" (Value.vMoney 0)
            (fmInsert "deposits" (Value.vMoney 0) m))

/-- The overview `Income` line and the `INCOME` section breakdown: store
`total_income` when the overview line matched; inside the section, store
the dividend and interest amounts (zero defaults), folding the whole
income into dividends when the breakdown is all zero; without the section,
all income goes to dividends. -/
def mhIncomeVal (o : MHOracle) (m : FieldMap) : Except PyErr (FieldMap × ℚ) :=
  match o.incomeCap with
  | some c => do
      let v ← pcE c
      pure (fmInsert "total_income" (Value.vMoney v) m, v)
  | none => pure (m, (0 : ℚ))

/-- The `INCOME` section breakdown: with the section found, store the
dividend and interest amounts (zero defaults), folding the whole income
into dividends when the breakdown is all zero; otherwise all income goes
to dividends and interest is zero. -/
def mhIncomeSection (o : MHOracle) (m1 : FieldMap) (incomeValue : ℚ) :
    Except PyErr FieldMap :=
  if o.incomeSectionFound then
    (match o.dividendCap with
      | some c => pcE c
      | none => pure 0) >>= fun dv =>
    (match o.interestCap with
      | some c => pcE c
      | none => pure 0) >>= fun ir =>
    (let m3 := fmInsert "interest" (Value.vMoney ir)
        (fmInsert "dividends" (Value.vMoney dv) m1)
     if dv = 0 ∧ ir = 0 ∧ 0 < incomeValue then
       pure (fmInsert "dividends" (Value.vMoney incomeValue) m3)
     else pure m3)
  else
    pure (fmInsert "interest" (Value.vMoney 0)
      (fmInsert "dividends" (Value.vMoney incomeValue) m1))

def mhStepIncome (o : MHOracle) (m : FieldMap) : Except PyErr FieldMap := do
  let p ← mhIncomeVal o m
  mhIncomeSection o p.1 p.2

/-- A signed-amount rule pair (used for `Change in Value` and
`Misc. & Corporate Actions`): the signed pattern's capture is negated when
it starts with a minus sign; otherwise the parenthesized pattern's capture
is negated; otherwise zero. -/
def mhSignedAmount (signedCap parenCap : Option String) : Except PyErr ℚ :=
  match signedCap with
  | some c =>
      if c.startsWith "-" then do
        let q ← pcE (c.drop 1)
        pure (-q)
      else pcE c
  | none =>
      match parenCap with
      | some c => do
          let q ← pcE c
          pure (-q)
      | none => pure 0

/-- The `Change in Value` line into `market_change`. -/
def mhStepChange (o : MHOracle) (m : FieldMap) : Except PyErr FieldMap := do
  let q ← mhSignedAmount o.changeSignedCap o.changeParenCap
  pure (fmInsert "market_change" (Value.vMoney q) m)

/-- The `Taxes, Fees and Expenses` line into `fees`: the parenthesized capture is
stored positive (fees are always stored as positive). -/
def mhStepFees (o : MHOracle) (m : FieldMap) : Except PyErr FieldMap :=
  match o.feePosCap with
  | some c => do
      let q ← pcE c
      pure (fmInsert "fees" (Value.vMoney q) m)
  | none =>
      match o.feeParenCap with
      | some c => do
          let q ← pcE c
          pure (fmInsert "fees" (Value.vMoney q) m)
      | none => pure (fmInsert "fees" (Value.vMoney 0) m)

/-- The `Misc. & Corporate Actions` line into `other_activity`. -/
def mhStepMisc (o : MHOracle) (m : FieldMap) : Except PyErr FieldMap := do
  let q ← mhSignedAmount o.miscSignedCap o.miscParenCap
  pure (fmInsert "other_activity" (Value.vMoney q) m)

/-- The `capital_gains` field is unconditionally zero for this format. -/
def mhStepCapitalGains (m : FieldMap) : FieldMap :=
  fmInsert "capital_gains" (Value.vMoney 0) m

/-- One allocation line of `_parse_account_allocation`: when the percentage
pattern matched and the ending value read from the map (zero default) is
positive, store that percentage of the ending value quantized to cents;
otherwise store `None`. -/
def mhAllocLine (field : String) (cap : Option String) (ev : ℚ)
    (m : FieldMap) : Except PyErr FieldMap :=
  match cap with
  | some c =>
      if 0 < ev then do
        let p ← pyDecE c
        pure (fmInsert field (Value.vMoney (quantizeCents (ev * p / 100))) m)
      else pure (fmInsert field Value.vNone m)
  | none => pure (fmInsert field Value.vNone m)

/-- Embeds `_parse_account_allocation`. -/
def mhStepAllocation (o : MHOracle) (m : FieldMap) : Except PyErr FieldMap :=
  if o.allocationFound then do
    let ev ← getMoneyD m "ending_value"
    let m1 ← mhAllocLine "money_market" o.moneyMarketPctCap ev m
    let m2 ← mhAllocLine "equities" o.equitiesPctCap ev m1
    mhAllocLine "fixed_income" o.fixedIncomePctCap ev m2
  else
    pure (fmInsert "fixed_income" Value.vNone
      (fmInsert "equities" Value.vNone
        (fmInsert "money_market" Value.vNone m)))

/-- Embeds `MHoldingsBrokerageParser.parse` after text recovery: the four section
passes in source order, starting from the empty `self.data`. -/
def mhParse (o : MHOracle) : Except PyErr FieldMap := do
  let m0 := mhStepPeriod o (mhStepAccount o [])
  let m1 ← mhStepBeginning o m0
  let m2 ← mhStepEnding o m1
  let m3 ← mhStepAdditions o m2
  let m4 ← mhStepIncome o m3
  let m5 ← mhStepChange o m4
  let m6 ← mhStepFees o m5
  let m7 ← mhStepMisc o m6
  let m8 := mhStepCapitalGains m7
  mhStepAllocation o m8

/-! ## Helper lemmas -/

theorem hasField_of_getMoney {m : FieldMap} {k : String} {q : ℚ}
    (h : getMoney m k = some q) : hasField m k = true := by
  unfold getMoney at h
  unfold hasField
  cases hl : m.lookup k with
  | none => rw [hl] at h; exact absurd h (by simp)
  | some v => simp

theorem getMoneyE_of_getMoney {m : FieldMap} {k : String} {q : ℚ}
    (h : getMoney m k = some q) : getMoneyE m k = Except.ok q := by
  unfold getMoney at h
  unfold getMoneyE
  cases hl : m.lookup k with
  | none => rw [hl] at h; exact absurd h (by simp)
  | some v =>
      rw [hl] at h
      cases v <;> simp_all

/-! ## C7: currency normalization -/

/-- C7: parsing the dollar-sign-and-comma form and the bare form of an
amount yields the identical exact decimal value, and the parenthesized
net-change rule variant yields exactly the negation of the bare parse. -/
theorem currency_normalization :
    parseCurrency "$1,234.56" = parseCurrency "1234.56" ∧
    parseCurrency "1234.56" = some (123456 / 100) ∧
    netChangeParenRule "500.00" = some (-(500 : ℚ)) ∧
    parseCurrency "500.00" = some 500 := by
  have e1 : pythonDecimalRep (cleanChars "$1,234.56") = some (false, 123456, 2) := by
    decide
  have e2 : pythonDecimalRep (cleanChars "1234.56") = some (false, 123456, 2) := by
    decide
  have e3 : pythonDecimalRep (cleanChars "500.00") = some (false, 50000, 2) := by
    decide
  have v5 : parseCurrency "500.00" = some 500 := by
    rw [parseCurrency, pythonDecimalChars, e3]
    simp [repVal]
    norm_num
  refine ⟨?_, ?_, ?_, v5⟩
  · rw [parseCurrency, pythonDecimalChars, e1, parseCurrency, pythonDecimalChars, e2]
  · rw [parseCurrency, pythonDecimalChars, e2]
    simp [repVal]
    norm_num
  · rw [netChangeParenRule, v5]
    rfl

/-! ## C3: chain continuity -/

/-- C3: with no strictly earlier statement of the investment, continuity
holds trivially; with a latest earlier statement that is not an annuity
statement, the result is the not-applicable marker; otherwise (balances
present) continuity holds exactly when the absolute difference between the
candidate's beginning value and the predecessor's ending value is under one
cent, fails otherwise, and the reported gap is the signed difference. -/
theorem chain_continuity (d : ℤ) (b? : Option ℚ) (rows : List StatementRow) :
    (previousStatement d rows = none → chainsWithPrevious d b? rows = some true) ∧
    (∀ p, previousStatement d rows = some p → p.annuity = none →
      chainsWithPrevious d b? rows = none) ∧
    (∀ p pa b e, previousStatement d rows = some p → p.annuity = some pa →
      b? = some b → pa.ending_value = some e →
      ((|b - e| < 1 / 100 → chainsWithPrevious d b? rows = some true) ∧
       (¬(|b - e| < 1 / 100) → chainsWithPrevious d b? rows = some false) ∧
       chainGap d b? rows = some (b - e))) := by
  refine ⟨?_, ?_, ?_⟩
  · intro h
    simp [chainsWithPrevious, h]
  · intro p hp hann
    simp [chainsWithPrevious, hp, hann]
  · intro p pa b e hp hann hb he
    refine ⟨?_, ?_, ?_⟩
    · intro h
      simp [chainsWithPrevious, hp, hann, hb, he]
      simpa [one_div] using h
    · intro h
      simp [chainsWithPrevious, hp, hann, hb, he]
      simpa [one_div, not_lt] using h
    · simp [chainGap, hp, hann, hb, he]

/-- C3 witness: predecessor ending 1000.00 and candidate beginning 1000.50
fail continuity with a reported gap of exactly 0.50; the file's example from
the claim. -/
theorem chain_continuity_witness :
    chainsWithPrevious 1 (some (2001 / 2))
      [⟨0, some ⟨some 0, some 1000⟩⟩] = some false ∧
    chainGap 1 (some (2001 / 2)) [⟨0, some ⟨some 0, some 1000⟩⟩] = some (1 / 2) := by
  have h := (chain_continuity 1 (some (2001 / 2))
      [⟨0, some ⟨some 0, some 1000⟩⟩]).2.2
    ⟨0, some ⟨some 0, some 1000⟩⟩ ⟨some 0, some 1000⟩ (2001 / 2) 1000
    (by decide) rfl rfl rfl
  have hd : (2001 : ℚ) / 2 - 1000 = 1 / 2 := by norm_num
  have habs : |(2001 : ℚ) / 2 - 1000| = 1 / 2 := by
    rw [hd]
    exact abs_of_nonneg (by norm_num)
  refine ⟨h.2.1 (by rw [habs]; norm_num), ?_⟩
  have hg := h.2.2
  rw [hd] at hg
  exact hg

/-! ## C4: derived-activity generation -/

theorem mem_createTransactions_source {s : AnnStmtRec} {t : Txn}
    (h : t ∈ createTransactions s) : t.source_statement = s.id := by
  unfold createTransactions at h
  simp only [List.mem_append] at h
  rcases h with ((h | h) | h) | h <;>
    { split at h <;> simp_all [mkTxn] }

/-- C4 counterexample to the claim as stated: a statement whose `premiums`
field is non-zero but negative generates no premium transaction at all -
`_create_transactions` tests `premiums > 0`, not `premiums != 0`. -/
theorem create_transactions_counterexample :
    (⟨1, 1, 0, -5, 0, 0, 0⟩ : AnnStmtRec).premiums ≠ 0 ∧
    createTransactions ⟨1, 1, 0, -5, 0, 0, 0⟩ = [] ∧
    saveStatement [] ⟨1, 1, 0, -5, 0, 0, 0⟩ true = [] := by
  refine ⟨by decide, ?_, ?_⟩ <;>
    simp [createTransactions, saveStatement, show ¬((0:ℚ) < -5) by decide]

/-- C4 amended: saving deletes the transactions previously generated by the
same statement and recreates one transaction per *positive* premium,
withdrawal and tax-withholding field and per *non-zero* net-change field,
each carrying that field's value, the statement's date and the source tag;
hence re-saving with identical fields is idempotent, and the claim's
example (premiums 500, net change -20) yields exactly the premium and
net-change entries. -/
theorem save_statement_amended (s : AnnStmtRec) (db : List Txn)
    (h : ∀ t ∈ db, t.source_statement ≠ s.id) :
    (∀ t, t ∈ createTransactions s ↔
      ((0 < s.premiums ∧ t = mkTxn s "PREMIUM" s.premiums) ∨
       (0 < s.withdrawals ∧ t = mkTxn s "WITHDRAWAL" s.withdrawals) ∨
       (0 < s.tax_withholding ∧ t = mkTxn s "TAX_WITHHOLDING" s.tax_withholding) ∨
       (s.net_change ≠ 0 ∧ t = mkTxn s "NET_CHANGE" s.net_change))) ∧
    saveStatement db s true = db ++ createTransactions s ∧
    saveStatement (saveStatement db s true) s false = saveStatement db s true ∧
    (s.premiums = 500 → s.withdrawals = 0 → s.tax_withholding = 0 →
      s.net_change = -20 →
      createTransactions s = [mkTxn s "PREMIUM" 500, mkTxn s "NET_CHANGE" (-20)]) := by
  have hnew : saveStatement db s true = db ++ createTransactions s := by
    simp [saveStatement]
  refine ⟨?_, hnew, ?_, ?_⟩
  · intro t
    unfold createTransactions
    simp only [List.mem_append, List.mem_singleton]
    constructor
    · intro hm
      rcases hm with ((hm | hm) | hm) | hm <;>
        { split at hm <;> simp_all }
    · intro hm
      rcases hm with ⟨hc, rfl⟩ | ⟨hc, rfl⟩ | ⟨hc, rfl⟩ | ⟨hc, rfl⟩ <;>
        simp [hc]
  · rw [hnew]
    unfold saveStatement
    simp only [if_neg (Bool.false_ne_true ∘ id)]
    rw [List.filter_append]
    have h1 : db.filter (fun t => decide (t.source_statement ≠ s.id)) = db := by
      apply List.filter_eq_self.mpr
      intro a ha
      simpa using h a ha
    have h2 : (createTransactions s).filter
        (fun t => decide (t.source_statement ≠ s.id)) = [] := by
      apply List.filter_eq_nil_iff.mpr
      intro a ha
      simpa using mem_createTransactions_source ha
    rw [h1, h2, List.append_nil]
  · intro hp hw ht hn
    unfold createTransactions
    rw [hp, hw, ht, hn]
    norm_num

/-- C4 witness: the claim's example statement, saved twice into an empty
transaction table. -/
theorem save_statement_amended_witness :
    createTransactions ⟨7, 3, 10, 500, 0, 0, -20⟩ =
      [mkTxn ⟨7, 3, 10, 500, 0, 0, -20⟩ "PREMIUM" 500,
       mkTxn ⟨7, 3, 10, 500, 0, 0, -20⟩ "NET_CHANGE" (-20)] ∧
    saveStatement (saveStatement [] ⟨7, 3, 10, 500, 0, 0, -20⟩ true)
        ⟨7, 3, 10, 500, 0, 0, -20⟩ false =
      saveStatement [] ⟨7, 3, 10, 500, 0, 0, -20⟩ true := by
  have h := save_statement_amended ⟨7, 3, 10, 500, 0, 0, -20⟩ []
    (by intro t ht; exact absurd ht (List.not_mem_nil t))
  exact ⟨h.2.2.2 rfl rfl rfl rfl, h.2.2.1⟩

/-! ## C2: missing-field errors gate reconciliation -/

theorem validate_gate_shape (m : FieldMap) (req : List String)
    (rec : FieldMap → Except PyErr (List RWarning))
    (v : Except PyErr VResult)
    (hv : v = if (missingFields req m).isEmpty then
        (rec m).map (fun ws => ⟨[], ws⟩)
      else Except.ok ⟨missingFields req m, []⟩) :
    (∀ r, v = Except.ok r →
      r.errors = missingFields req m ∧ (r.errors ≠ [] → r.warnings = [])) ∧
    (missingFields req m ≠ [] → v = Except.ok ⟨missingFields req m, []⟩) := by
  cases he : (missingFields req m).isEmpty with
  | true =>
      have hnil : missingFields req m = [] := by
        simpa [List.isEmpty_iff] using he
      rw [he] at hv
      simp only [if_pos rfl] at hv
      constructor
      · intro r hr
        rw [hv] at hr
        cases hrec : rec m with
        | error e => rw [hrec] at hr; exact absurd hr (by simp [Except.map])
        | ok ws =>
            rw [hrec] at hr
            have hr2 : r = ⟨[], ws⟩ := by
              have := hr.symm
              simpa [Except.map] using this
            subst hr2
            rw [hnil]
            exact ⟨rfl, fun hne => absurd rfl hne⟩
      · intro hne
        exact absurd hnil hne
  | false =>
      rw [he] at hv
      simp only [Bool.false_eq_true, if_neg] at hv
      constructor
      · intro r hr
        rw [hv] at hr
        have hr2 : r = ⟨missingFields req m, []⟩ := by
          have := hr.symm
          simpa using this
        subst hr2
        exact ⟨rfl, fun _ => rfl⟩
      · intro _
        exact hv

/-- C2: each Family A and Family B validator reports exactly the required
fields absent from the raw field map as errors (in required-list order),
performs reconciliation and can emit its warning only when that error list
is empty, and on a map missing any required field returns the error list
with no reconciliation warning. -/
theorem validate_missing_field_errors (m : FieldMap) :
    (∀ r, validateA m = Except.ok r →
      r.errors = missingFields requiredA m ∧ (r.errors ≠ [] → r.warnings = [])) ∧
    (missingFields requiredA m ≠ [] →
      validateA m = Except.ok ⟨missingFields requiredA m, []⟩) ∧
    (∀ r, validateB m = Except.ok r →
      r.errors = missingFields requiredB m ∧ (r.errors ≠ [] → r.warnings = [])) ∧
    (missingFields requiredB m ≠ [] →
      validateB m = Except.ok ⟨missingFields requiredB m, []⟩) := by
  have ha := validate_gate_shape m requiredA reconcileA (validateA m) rfl
  have hb := validate_gate_shape m requiredB reconcileB (validateB m) rfl
  exact ⟨ha.1, ha.2, hb.1, hb.2⟩

/-- C2 witness: the empty field map misses all required fields of both
formats and validates to the full error lists with no warning. -/
theorem validate_missing_field_errors_witness :
    validateA [] = Except.ok ⟨requiredA, []⟩ ∧
    validateB [] = Except.ok ⟨requiredB, []⟩ := by
  have h := validate_missing_field_errors []
  have ea : missingFields requiredA [] = requiredA := by decide
  have eb : missingFields requiredB [] = requiredB := by decide
  have h1 := h.2.1 (by rw [ea]; decide)
  have h2 := h.2.2.2 (by rw [eb]; decide)
  rw [ea] at h1
  rw [eb] at h2
  exact ⟨h1, h2⟩

/-! ## C1: reconciliation formulas and the one-dollar tolerance -/

theorem reconcileA_eval (m : FieldMap) (b e p w t n : ℚ)
    (hb : getMoney m "beginning_value" = some b)
    (hp : getMoney m "premiums" = some p)
    (hn : getMoney m "net_change" = some n)
    (hw : getMoney m "withdrawals" = some w)
    (ht : getMoney m "tax_withholding" = some t)
    (he : getMoney m "ending_value" = some e) :
    reconcileA m = Except.ok
      (if 1 < |e - (b + p + n - w - t)| then
        [⟨b + p + n - w - t, e, |e - (b + p + n - w - t)|⟩]
      else []) := by
  unfold reconcileA
  rw [getMoneyE_of_getMoney hb, getMoneyE_of_getMoney hp, getMoneyE_of_getMoney hn,
    getMoneyE_of_getMoney hw, getMoneyE_of_getMoney ht, getMoneyE_of_getMoney he]
  rfl

theorem reconcileB_eval (m : FieldMap) (b e emp er g lp w f : ℚ)
    (hb : getMoney m "beginning_value" = some b)
    (hemp : getMoney m "employee_contributions" = some emp)
    (her : getMoney m "employer_contributions" = some er)
    (hg : getMoney m "investment_gain_loss" = some g)
    (hlp : getMoney m "loan_payments" = some lp)
    (hw : getMoney m "withdrawals" = some w)
    (hf : getMoney m "fees" = some f)
    (he : getMoney m "ending_value" = some e) :
    reconcileB m = Except.ok
      (if 1 < |e - (b + emp + er + g + lp - w - f)| then
        [⟨b + emp + er + g + lp - w - f, e, |e - (b + emp + er + g + lp - w - f)|⟩]
      else []) := by
  unfold reconcileB
  rw [getMoneyE_of_getMoney hb, getMoneyE_of_getMoney hemp, getMoneyE_of_getMoney her,
    getMoneyE_of_getMoney hg, getMoneyE_of_getMoney hlp, getMoneyE_of_getMoney hw,
    getMoneyE_of_getMoney hf, getMoneyE_of_getMoney he]
  rfl

theorem reconcileC_eval (m : FieldMap) (b e dep w dv i cg mc oa f : ℚ)
    (hb : getMoney m "beginning_value" = some b)
    (hdep : getMoney m "deposits" = some dep)
    (hw : getMoney m "withdrawals" = some w)
    (hdv : getMoney m "dividends" = some dv)
    (hi : getMoney m "interest" = some i)
    (hcg : getMoney m "capital_gains" = some cg)
    (hmc : getMoney m "market_change" = some mc)
    (hoa : getMoneyD m "other_activity" = Except.ok oa)
    (hf : getMoney m "fees" = some f)
    (he : getMoney m "ending_value" = some e) :
    reconcileC m = Except.ok
      (if 1 < |e - (b + dep - w + dv + i + cg + mc + oa - f)| then
        [⟨b + dep - w + dv + i + cg + mc + oa - f, e,
          |e - (b + dep - w + dv + i + cg + mc + oa - f)|⟩]
      else []) := by
  unfold reconcileC
  rw [getMoneyE_of_getMoney hb, getMoneyE_of_getMoney hdep, getMoneyE_of_getMoney hw,
    getMoneyE_of_getMoney hdv, getMoneyE_of_getMoney hi, getMoneyE_of_getMoney hcg,
    getMoneyE_of_getMoney hmc, hoa, getMoneyE_of_getMoney hf, getMoneyE_of_getMoney he]
  rfl

theorem missingA_nil (m : FieldMap)
    (h1 : hasField m "statement_date" = true)
    (h2 : hasField m "period_start" = true)
    (h3 : hasField m "period_end" = true)
    (hb : hasField m "beginning_value" = true)
    (he : hasField m "ending_value" = true)
    (hp : hasField m "premiums" = true)
    (hw : hasField m "withdrawals" = true)
    (ht : hasField m "tax_withholding" = true)
    (hn : hasField m "net_change" = true) :
    missingFields requiredA m = [] := by
  simp [missingFields, requiredA, List.filter_cons, h1, h2, h3, hb, he, hp, hw, ht, hn]

theorem missingB_nil (m : FieldMap)
    (h1 : hasField m "statement_date" = true)
    (h2 : hasField m "period_start" = true)
    (h3 : hasField m "period_end" = true)
    (hb : hasField m "beginning_value" = true)
    (he : hasField m "ending_value" = true)
    (hemp : hasField m "employee_contributions" = true)
    (her : hasField m "employer_contributions" = true)
    (hg : hasField m "investment_gain_loss" = true)
    (hw : hasField m "withdrawals" = true)
    (hf : hasField m "fees" = true)
    (hlp : hasField m "loan_payments" = true) :
    missingFields requiredB m = [] := by
  simp [missingFields, requiredB, List.filter_cons,
    h1, h2, h3, hb, he, hemp, her, hg, hw, hf, hlp]

theorem missingC_nil (m : FieldMap)
    (h1 : hasField m "statement_date" = true)
    (hb : hasField m "beginning_value" = true)
    (he : hasField m "ending_value" = true)
    (hdep : hasField m "deposits" = true)
    (hw : hasField m "withdrawals" = true)
    (hdv : hasField m "dividends" = true)
    (hi : hasField m "interest" = true)
    (hmc : hasField m "market_change" = true)
    (hf : hasField m "fees" = true) :
    missingFields requiredC m = [] := by
  simp [missingFields, requiredC, List.filter_cons, h1, hb, he, hdep, hw, hdv, hi, hmc, hf]

theorem validate_of_reconcile (m : FieldMap) (req : List String)
    (rec : FieldMap → Except PyErr (List RWarning))
    (v : Except PyErr VResult) (ws : List RWarning)
    (hv : v = if (missingFields req m).isEmpty then
        (rec m).map (fun ws => ⟨[], ws⟩)
      else Except.ok ⟨missingFields req m, []⟩)
    (hnil : missingFields req m = [])
    (hrec : rec m = Except.ok ws) :
    v = Except.ok ⟨[], ws⟩ := by
  rw [hv, hnil]
  simp [hrec, Except.map]

/-- C1 counterexample to the claim as stated: a Family C field map holding
every required field (so the claim promises a zero- or one-warning result)
but no `capital_gains` key makes `MHoldingsBrokerageParser.validate` raise
`KeyError` instead of returning a validation result, because the
reconciliation expression reads `self.data['capital_gains']` although that
field is not in the required-field list. -/
theorem validateC_keyerror_counterexample :
    requiredC.all
      (hasField
        [("statement_date", Value.vDate 0), ("beginning_value", Value.vMoney 100),
         ("ending_value", Value.vMoney 100), ("deposits", Value.vMoney 0),
         ("withdrawals", Value.vMoney 0), ("dividends", Value.vMoney 0),
         ("interest", Value.vMoney 0), ("market_change", Value.vMoney 0),
         ("fees", Value.vMoney 0)]) = true ∧
    validateC
      [("statement_date", Value.vDate 0), ("beginning_value", Value.vMoney 100),
       ("ending_value", Value.vMoney 100), ("deposits", Value.vMoney 0),
       ("withdrawals", Value.vMoney 0), ("dividends", Value.vMoney 0),
       ("interest", Value.vMoney 0), ("market_change", Value.vMoney 0),
       ("fees", Value.vMoney 0)] = Except.error PyErr.keyError := by
  exact ⟨by decide, by rfl⟩

/-- C1 amended: on a raw field map holding all of the format's required
fields (as well-typed values; for Family C additionally holding
`capital_gains`, without which `validate` raises `KeyError`, and reading
`other_activity` with a zero default), the validator computes
`expected_ending` by the family's reconciliation formula and returns zero
warnings when the absolute difference from `ending_value` is at most 1.00,
and exactly one warning carrying the expected value, the actual ending
value and their absolute difference when it exceeds 1.00. -/
theorem validate_reconciliation_amended
    (mA mB mC : FieldMap)
    (bA eA pA wA tA nA : ℚ)
    (bB eB empB erB gB lpB wB fB : ℚ)
    (bC eC depC wC dvC iC cgC mcC oaC fC : ℚ)
    (hA1 : hasField mA "statement_date" = true)
    (hA2 : hasField mA "period_start" = true)
    (hA3 : hasField mA "period_end" = true)
    (hAb : getMoney mA "beginning_value" = some bA)
    (hAp : getMoney mA "premiums" = some pA)
    (hAn : getMoney mA "net_change" = some nA)
    (hAw : getMoney mA "withdrawals" = some wA)
    (hAt : getMoney mA "tax_withholding" = some tA)
    (hAe : getMoney mA "ending_value" = some eA)
    (hB1 : hasField mB "statement_date" = true)
    (hB2 : hasField mB "period_start" = true)
    (hB3 : hasField mB "period_end" = true)
    (hBb : getMoney mB "beginning_value" = some bB)
    (hBemp : getMoney mB "employee_contributions" = some empB)
    (hBer : getMoney mB "employer_contributions" = some erB)
    (hBg : getMoney mB "investment_gain_loss" = some gB)
    (hBlp : getMoney mB "loan_payments" = some lpB)
    (hBw : getMoney mB "withdrawals" = some wB)
    (hBf : getMoney mB "fees" = some fB)
    (hBe : getMoney mB "ending_value" = some eB)
    (hC1 : hasField mC "statement_date" = true)
    (hCb : getMoney mC "beginning_value" = some bC)
    (hCdep : getMoney mC "deposits" = some depC)
    (hCw : getMoney mC "withdrawals" = some wC)
    (hCdv : getMoney mC "dividends" = some dvC)
    (hCi : getMoney mC "interest" = some iC)
    (hCcg : getMoney mC "capital_gains" = some cgC)
    (hCmc : getMoney mC "market_change" = some mcC)
    (hCoa : getMoneyD mC "other_activity" = Except.ok oaC)
    (hCf : getMoney mC "fees" = some fC)
    (hCe : getMoney mC "ending_value" = some eC) :
    ((|eA - (bA + pA + nA - wA - tA)| ≤ 1 → validateA mA = Except.ok ⟨[], []⟩) ∧
     (1 < |eA - (bA + pA + nA - wA - tA)| →
       validateA mA = Except.ok
         ⟨[], [⟨bA + pA + nA - wA - tA, eA, |eA - (bA + pA + nA - wA - tA)|⟩]⟩)) ∧
    ((|eB - (bB + empB + erB + gB + lpB - wB - fB)| ≤ 1 →
       validateB mB = Except.ok ⟨[], []⟩) ∧
     (1 < |eB - (bB + empB + erB + gB + lpB - wB - fB)| →
       validateB mB = Except.ok
         ⟨[], [⟨bB + empB + erB + gB + lpB - wB - fB, eB,
           |eB - (bB + empB + erB + gB + lpB - wB - fB)|⟩]⟩)) ∧
    ((|eC - (bC + depC - wC + dvC + iC + cgC + mcC + oaC - fC)| ≤ 1 →
       validateC mC = Except.ok ⟨[], []⟩) ∧
     (1 < |eC - (bC + depC - wC + dvC + iC + cgC + mcC + oaC - fC)| →
       validateC mC = Except.ok
         ⟨[], [⟨bC + depC - wC + dvC + iC + cgC + mcC + oaC - fC, eC,
           |eC - (bC + depC - wC + dvC + iC + cgC + mcC + oaC - fC)|⟩]⟩)) := by
  have hmA := missingA_nil mA hA1 hA2 hA3 (hasField_of_getMoney hAb)
    (hasField_of_getMoney hAe) (hasField_of_getMoney hAp)
    (hasField_of_getMoney hAw) (hasField_of_getMoney hAt)
    (hasField_of_getMoney hAn)
  have hmB := missingB_nil mB hB1 hB2 hB3 (hasField_of_getMoney hBb)
    (hasField_of_getMoney hBe) (hasField_of_getMoney hBemp)
    (hasField_of_getMoney hBer) (hasField_of_getMoney hBg)
    (hasField_of_getMoney hBw) (hasField_of_getMoney hBf)
    (hasField_of_getMoney hBlp)
  have hmC := missingC_nil mC hC1 (hasField_of_getMoney hCb)
    (hasField_of_getMoney hCe) (hasField_of_getMoney hCdep)
    (hasField_of_getMoney hCw) (hasField_of_getMoney hCdv)
    (hasField_of_getMoney hCi) (hasField_of_getMoney hCmc)
    (hasField_of_getMoney hCf)
  have hrA := reconcileA_eval mA bA eA pA wA tA nA hAb hAp hAn hAw hAt hAe
  have hrB := reconcileB_eval mB bB eB empB erB gB lpB wB fB
    hBb hBemp hBer hBg hBlp hBw hBf hBe
  have hrC := reconcileC_eval mC bC eC depC wC dvC iC cgC mcC oaC fC
    hCb hCdep hCw hCdv hCi hCcg hCmc hCoa hCf hCe
  refine ⟨⟨?_, ?_⟩, ⟨?_, ?_⟩, ⟨?_, ?_⟩⟩
  · intro h
    exact validate_of_reconcile mA requiredA reconcileA (validateA mA) [] rfl hmA
      (by rw [hrA, if_neg (not_lt.mpr h)])
  · intro h
    exact validate_of_reconcile mA requiredA reconcileA (validateA mA) _ rfl hmA
      (by rw [hrA, if_pos h])
  · intro h
    exact validate_of_reconcile mB requiredB reconcileB (validateB mB) [] rfl hmB
      (by rw [hrB, if_neg (not_lt.mpr h)])
  · intro h
    exact validate_of_reconcile mB requiredB reconcileB (validateB mB) _ rfl hmB
      (by rw [hrB, if_pos h])
  · intro h
    exact validate_of_reconcile mC requiredC reconcileC (validateC mC) [] rfl hmC
      (by rw [hrC, if_neg (not_lt.mpr h)])
  · intro h
    exact validate_of_reconcile mC requiredC reconcileC (validateC mC) _ rfl hmC
      (by rw [hrC, if_pos h])

/-- C1 witness: three complete all-zero field maps reconcile exactly and
validate with no error and no warning in each family. -/
theorem validate_reconciliation_amended_witness :
    validateA
      [("statement_date", Value.vDate 0), ("period_start", Value.vDate 0),
       ("period_end", Value.vDate 0), ("beginning_value", Value.vMoney 0),
       ("ending_value", Value.vMoney 0), ("premiums", Value.vMoney 0),
       ("withdrawals", Value.vMoney 0), ("tax_withholding", Value.vMoney 0),
       ("net_change", Value.vMoney 0)] = Except.ok ⟨[], []⟩ ∧
    validateB
      [("statement_date", Value.vDate 0), ("period_start", Value.vDate 0),
       ("period_end", Value.vDate 0), ("beginning_value", Value.vMoney 0),
       ("ending_value", Value.vMoney 0), ("employee_contributions", Value.vMoney 0),
       ("employer_contributions", Value.vMoney 0),
       ("investment_gain_loss", Value.vMoney 0), ("withdrawals", Value.vMoney 0),
       ("fees", Value.vMoney 0), ("loan_payments", Value.vMoney 0)] =
      Except.ok ⟨[], []⟩ ∧
    validateC
      [("statement_date", Value.vDate 0), ("beginning_value", Value.vMoney 0),
       ("ending_value", Value.vMoney 0), ("deposits", Value.vMoney 0),
       ("withdrawals", Value.vMoney 0), ("dividends", Value.vMoney 0),
       ("interest", Value.vMoney 0), ("market_change", Value.vMoney 0),
       ("fees", Value.vMoney 0), ("capital_gains", Value.vMoney 0)] =
      Except.ok ⟨[], []⟩ := by
  have h := validate_reconciliation_amended
    [("statement_date", Value.vDate 0), ("period_start", Value.vDate 0),
     ("period_end", Value.vDate 0), ("beginning_value", Value.vMoney 0),
     ("ending_value", Value.vMoney 0), ("premiums", Value.vMoney 0),
     ("withdrawals", Value.vMoney 0), ("tax_withholding", Value.vMoney 0),
     ("net_change", Value.vMoney 0)]
    [("statement_date", Value.vDate 0), ("period_start", Value.vDate 0),
     ("period_end", Value.vDate 0), ("beginning_value", Value.vMoney 0),
     ("ending_value", Value.vMoney 0), ("employee_contributions", Value.vMoney 0),
     ("employer_contributions", Value.vMoney 0),
     ("investment_gain_loss", Value.vMoney 0), ("withdrawals", Value.vMoney 0),
     ("fees", Value.vMoney 0), ("loan_payments", Value.vMoney 0)]
    [("statement_date", Value.vDate 0), ("beginning_value", Value.vMoney 0),
     ("ending_value", Value.vMoney 0), ("deposits", Value.vMoney 0),
     ("withdrawals", Value.vMoney 0), ("dividends", Value.vMoney 0),
     ("interest", Value.vMoney 0), ("market_change", Value.vMoney 0),
     ("fees", Value.vMoney 0), ("capital_gains", Value.vMoney 0)]
    0 0 0 0 0 0 0 0 0 0 0 0 0 0 0 0 0 0 0 0 0 0 0 0
    rfl rfl rfl rfl rfl rfl rfl rfl rfl rfl rfl rfl rfl rfl rfl rfl
    rfl rfl rfl rfl rfl rfl rfl rfl rfl rfl rfl rfl rfl rfl rfl
  exact ⟨h.1.1 (by norm_num), h.2.1.1 (by norm_num), h.2.2.1 (by norm_num)⟩

/-! ## C6: format classifier order and default dispatch -/

/-- C6: the detector equals the spec-side first-match scan over the fixed
ordered check sequence (M Holdings, John Hancock 401k, Valic, TIAA,
Jackson), returns the unknown tag when usable text is missing, and
`parse_statement` dispatches the unknown tag to the default Jackson
extractor instead of failing. -/
theorem classifier_first_match (text : String) :
    detectStatementType text = classifySpec text ∧
    (strippedLen text < 50 → detectStatementType text = "unknown") ∧
    selectParser "unknown" = ParserKind.jackson := by
  refine ⟨?_, ?_, rfl⟩
  · by_cases h : strippedLen text < 50
    · simp [detectStatementType, classifySpec, h]
    · by_cases h1 : sigMHoldings text.toLower <;>
      by_cases h2 : sigJohnHancock401k text.toLower <;>
      by_cases h3 : sigValic text.toLower <;>
      by_cases h4 : sigTiaa text.toLower <;>
      by_cases h5 : sigJackson text.toLower <;>
        simp [detectStatementType, classifySpec, signatureChecks, List.find?,
          h, h1, h2, h3, h4, h5]
  · intro h
    simp [detectStatementType, h]

/-- C6 witness: the empty text is below the usable threshold, classifies
as unknown and dispatches to the default parser. -/
theorem classifier_first_match_witness :
    detectStatementType "" = "unknown" ∧
    selectParser (detectStatementType "") = ParserKind.jackson := by
  have h := classifier_first_match ""
  have hu := h.2.1 (by decide)
  refine ⟨hu, ?_⟩
  rw [hu]
  exact h.2.2

/-! ## C5: staged text recovery -/

set_option maxRecDepth 4000 in
/-- C5 counterexample to the claim as stated: for the TIAA parser (one of
the two parse methods the claim describes), with both text-layer stages
below any 100-character threshold and OCR above it, the final recovered
text is not the OCR output - TIAA always runs OCR and returns the OCR text
concatenated with the text-layer text, so a newline (and any text-layer
residue) trails the OCR output. -/
theorem text_recovery_counterexample :
    nonWhitespaceCount "hi" < 100 ∧
    100 ≤ nonWhitespaceCount (String.mk (List.replicate 120 'x')) ∧
    recoverTextTIAA (String.mk (List.replicate 120 'x')) (some "hi") none ≠
      Except.ok (String.mk (List.replicate 120 'x')) := by
  refine ⟨by decide, by decide, ?_⟩
  have he : recoverTextTIAA (String.mk (List.replicate 120 'x')) (some "hi") none =
      Except.ok (String.mk (List.replicate 120 'x') ++ "\n" ++ "") := by rfl
  rw [he]
  intro hcontra
  exact absurd (Except.ok.inj hcontra) (by decide)

/-- C5 amended: for the Jackson/Valic/John Hancock/M Holdings parsers, each
later stage's output is used only when the earlier stages' text is `None`,
empty or under 100 characters after stripping leading and trailing
whitespace; when both text layers fail that gate and the OCR text meets it,
the recovered text equals the OCR output, and when all three fail it,
extraction fails.  The TIAA parser instead always runs OCR and, when it
succeeds, returns the OCR output concatenated via a newline with the
text-layer output (pdfplumber's when it meets the gate, otherwise
PyPDF2's). -/
theorem text_recovery_amended (p1 p2 : Option String) (ocr : String) :
    (usableOpt p1 = true → recoverTextStaged p1 p2 ocr = Except.ok (p1.getD "")) ∧
    (usableOpt p1 = false → usableOpt p2 = true →
      recoverTextStaged p1 p2 ocr = Except.ok (p2.getD "")) ∧
    (usableOpt p1 = false → usableOpt p2 = false → usableText ocr = true →
      recoverTextStaged p1 p2 ocr = Except.ok ocr) ∧
    (usableOpt p1 = false → usableOpt p2 = false → usableText ocr = false →
      recoverTextStaged p1 p2 ocr = Except.error ()) ∧
    (∀ s, usableOpt p1 = true → recoverTextTIAA ocr p1 p2 = Except.ok s →
      s = ocr ++ "\n" ++ p1.getD "") ∧
    (∀ s, usableOpt p1 = false → recoverTextTIAA ocr p1 p2 = Except.ok s →
      s = ocr ++ "\n" ++ p2.getD "") := by
  refine ⟨?_, ?_, ?_, ?_, ?_, ?_⟩
  · intro h
    cases p1 with
    | none => exact absurd h (by simp [usableOpt])
    | some s =>
        have hs : usableText s = true := h
        simp [recoverTextStaged, h, hs]
  · intro h1 h2
    cases p2 with
    | none => exact absurd h2 (by simp [usableOpt])
    | some s =>
        have hs : usableText s = true := h2
        simp [recoverTextStaged, h1, h2, hs]
  · intro h1 h2 h3
    simp [recoverTextStaged, h1, h2, h3]
  · intro h1 h2 h3
    simp [recoverTextStaged, h1, h2, h3]
  · intro s h1 hok
    unfold recoverTextTIAA at hok
    rw [h1] at hok
    simp only [if_pos] at hok
    by_cases hg : usableText (ocr ++ "\n" ++ p1.getD "") = true
    · rw [if_pos hg] at hok
      exact (Except.ok.inj hok).symm
    · rw [if_neg (by simp [hg])] at hok
      exact absurd hok (by simp)
  · intro s h1 hok
    unfold recoverTextTIAA at hok
    rw [h1] at hok
    simp only [Bool.false_eq_true, if_false] at hok
    by_cases hg : usableText (ocr ++ "\n" ++ p2.getD "") = true
    · rw [if_pos hg] at hok
      exact (Except.ok.inj hok).symm
    · rw [if_neg (by simp [hg])] at hok
      exact absurd hok (by simp)

/-- C5 witness: with both text layers absent, a 120-character OCR text is
returned as the recovered text, and a short OCR text makes extraction
fail. -/
theorem text_recovery_amended_witness :
    recoverTextStaged none none (String.mk (List.replicate 120 'x')) =
      Except.ok (String.mk (List.replicate 120 'x')) ∧
    recoverTextStaged none none "short" = Except.error () := by
  have h := text_recovery_amended none none (String.mk (List.replicate 120 'x'))
  have h2 := text_recovery_amended none none "short"
  exact ⟨h.2.2.1 rfl rfl (by decide), h2.2.2.2.1 rfl rfl (by decide)⟩

/-! ## C8: batch gap finder -/

theorem gapsLoop_eq (rest : List StatementRow) :
    ∀ prev : StatementRow,
    (∀ av, prev.annuity = some av →
      av.beginning_value.isSome ∧ av.ending_value.isSome) →
    (∀ r ∈ rest, ∀ av, r.annuity = some av →
      av.beginning_value.isSome ∧ av.ending_value.isSome) →
    gapsLoop prev rest =
      Except.ok (((prev :: rest).zip rest).filterMap specGapEntry) := by
  induction rest with
  | nil => intro prev _ _; rfl
  | cons curr rest2 ih =>
      intro prev hp hr
      have hcurr := hr curr (by simp)
      have hrest2 : ∀ r ∈ rest2, ∀ av, r.annuity = some av →
          av.beginning_value.isSome ∧ av.ending_value.isSome :=
        fun r hm => hr r (by simp [hm])
      have ihc := ih curr hcurr hrest2
      cases hpa : prev.annuity with
      | none =>
          simp [gapsLoop, hpa, ihc, specGapEntry, Except.bind, Bind.bind, Pure.pure, Except.pure]
      | some pa =>
          cases hca : curr.annuity with
          | none =>
              simp [gapsLoop, hpa, hca, ihc, specGapEntry, Except.bind, Bind.bind, Pure.pure, Except.pure]
          | some ca =>
              obtain ⟨b, hbv⟩ := Option.isSome_iff_exists.mp (hcurr ca hca).1
              obtain ⟨e, hev⟩ := Option.isSome_iff_exists.mp (hp pa hpa).2
              by_cases hgap : (100 : ℚ)⁻¹ ≤ |b - e|
              · simp [gapsLoop, hpa, hca, hbv, hev, hgap, ihc, specGapEntry,
                  Except.bind, Bind.bind, Pure.pure, Except.pure, one_div]
              · simp [gapsLoop, hpa, hca, hbv, hev, hgap, ihc, specGapEntry,
                  Except.bind, Bind.bind, Pure.pure, Except.pure, one_div]

/-- C8: on a statement history whose annuity records carry both balances,
the batch gap finder sorts by ascending statement date and returns exactly
the adjacent pairs of comparable annuity shape whose signed difference
(current beginning minus previous ending) is at least one cent in absolute
value, each annotated with both dates, the previous ending value, the
current beginning value and the signed gap; pairs within a cent contribute
nothing. -/
theorem statement_gaps_spec (rows : List StatementRow)
    (hv : ∀ r ∈ rows, ∀ av, r.annuity = some av →
      av.beginning_value.isSome ∧ av.ending_value.isSome) :
    getStatementGaps rows =
      Except.ok (((List.insertionSort dateLe rows).zip
        (List.insertionSort dateLe rows).tail).filterMap specGapEntry) ∧
    List.Sorted dateLe (List.insertionSort dateLe rows) := by
  have hperm := List.perm_insertionSort dateLe rows
  have hv' : ∀ r ∈ List.insertionSort dateLe rows, ∀ av, r.annuity = some av →
      av.beginning_value.isSome ∧ av.ending_value.isSome :=
    fun r hm => hv r (hperm.mem_iff.mp hm)
  constructor
  · unfold getStatementGaps
    cases hs : List.insertionSort dateLe rows with
    | nil => simp
    | cons s rest =>
        rw [hs] at hv'
        have h := gapsLoop_eq rest s (hv' s (by simp))
          (fun r hm => hv' r (by simp [hm]))
        simpa using h
  · exact List.sorted_insertionSort dateLe rows

/-- C8 witness: two date-ordered annuity statements with ending 1000.00 and
next beginning 1050.00 yield exactly one gap entry with gap 50. -/
theorem statement_gaps_spec_witness :
    getStatementGaps
      [⟨0, some ⟨some 0, some 1000⟩⟩, ⟨1, some ⟨some 1050, some 1100⟩⟩] =
      Except.ok [⟨1, 0, 50, 1000, 1050⟩] := by
  have h := (statement_gaps_spec
    [⟨0, some ⟨some 0, some 1000⟩⟩, ⟨1, some ⟨some 1050, some 1100⟩⟩]
    (by decide)).1
  rw [h]
  have hsort : List.insertionSort dateLe
      [(⟨0, some ⟨some 0, some 1000⟩⟩ : StatementRow),
       ⟨1, some ⟨some 1050, some 1100⟩⟩] =
      [⟨0, some ⟨some 0, some 1000⟩⟩, ⟨1, some ⟨some 1050, some 1100⟩⟩] := by
    decide
  rw [hsort]
  have habs : (1 : ℚ) / 100 ≤ |(1050 : ℚ) - 1000| := by
    rw [show (1050 : ℚ) - 1000 = 50 by norm_num]
    rw [abs_of_nonneg (by norm_num : (0 : ℚ) ≤ 50)]
    norm_num
  have hsp : specGapEntry
      (⟨0, some ⟨some 0, some 1000⟩⟩, ⟨1, some ⟨some 1050, some 1100⟩⟩) =
      some ⟨1, 0, (1050 : ℚ) - 1000, 1000, 1050⟩ := by
    simp only [specGapEntry]
    rw [if_pos habs]
  simp [hsp]
  norm_num

/-! ## C9: totality and shape of `_parse_currency` on money captures -/

theorem digit_beq_false {c : Char} (h : c.isDigit = true) {ch : Char}
    (hch : ch.isDigit = false) : (c == ch) = false := by
  by_cases hc : c = ch
  · subst hc
    rw [h] at hch
    exact absurd hch (by simp)
  · simp [hc]

theorem amountCaptureTail_decomp :
    ∀ cs, amountCaptureTail cs = true →
      ∃ pre d1 d2, cs = pre ++ ['.', d1, d2] ∧
        (∀ c ∈ pre, c.isDigit = true ∨ c = ',') ∧
        d1.isDigit = true ∧ d2.isDigit = true := by
  intro cs
  induction cs with
  | nil => intro h; exact absurd h (by simp [amountCaptureTail])
  | cons c rest ih =>
      intro h
      by_cases hc : c = '.'
      · subst hc
        have h2 : twoDigits rest = true := by
          rw [amountCaptureTail] at h
          simpa using h
        match rest, h2 with
        | [d1, d2], h2 =>
            rw [twoDigits, Bool.and_eq_true] at h2
            exact ⟨[], d1, d2, rfl, by simp, h2.1, h2.2⟩
      · have h2 : ((c.isDigit || c == ',') && amountCaptureTail rest) = true := by
          rw [amountCaptureTail] at h
          simpa [hc] using h
        rw [Bool.and_eq_true] at h2
        obtain ⟨hcd, hrest⟩ := h2
        obtain ⟨pre, d1, d2, heq, hall, hd1, hd2⟩ := ih hrest
        refine ⟨c :: pre, d1, d2, by rw [heq]; rfl, ?_, hd1, hd2⟩
        intro x hx
        rcases List.mem_cons.mp hx with rfl | hx
        · rw [Bool.or_eq_true] at hcd
          rcases hcd with hd | hcm
          · exact Or.inl hd
          · exact Or.inr (by simpa using hcm)
        · exact hall x hx

theorem takeWhile_digits_append (fr : List Char) :
    ∀ l : List Char, (∀ c ∈ l, c.isDigit = true) →
      ((l ++ '.' :: fr).takeWhile Char.isDigit = l ∧
       (l ++ '.' :: fr).dropWhile Char.isDigit = '.' :: fr) := by
  intro l
  induction l with
  | nil =>
      intro _
      constructor
      · simp [List.takeWhile_cons_of_neg, show Char.isDigit '.' = false from rfl]
      · simp [List.dropWhile_cons_of_neg, show Char.isDigit '.' = false from rfl]
  | cons a l ih =>
      intro hl
      have ha : a.isDigit = true := hl a (by simp)
      have ih2 := ih (fun c hc => hl c (by simp [hc]))
      constructor
      · rw [List.cons_append, List.takeWhile_cons_of_pos ha, ih2.1]
      · rw [List.cons_append, List.dropWhile_cons_of_pos ha, ih2.2]

/-- The character filter of `_parse_currency` keeps digits and the point
and drops nothing else from a capture's digits-and-commas prefix. -/
theorem clean_amount_capture {c0 : Char} {pre : List Char} {d1 d2 : Char}
    (hc0 : c0.isDigit = true ∨ c0 = ',')
    (hall : ∀ c ∈ pre, c.isDigit = true ∨ c = ',')
    (hd1 : d1.isDigit = true) (hd2 : d2.isDigit = true) :
    ∃ P : List Char, (∀ c ∈ P, c.isDigit = true) ∧
      (c0 :: (pre ++ ['.', d1, d2])).filter
        (fun c => !(c == '$' || c == ',')) = P ++ ['.', d1, d2] := by
  refine ⟨(c0 :: pre).filter (fun c => !(c == '$' || c == ',')), ?_, ?_⟩
  · intro c hc
    obtain ⟨hmem, hkeep⟩ := List.mem_filter.mp hc
    rcases List.mem_cons.mp hmem with rfl | hmem2
    · rcases hc0 with hd | rfl
      · exact hd
      · simp at hkeep
    · rcases hall c hmem2 with hd | rfl
      · exact hd
      · simp at hkeep
  · have happ : (c0 :: (pre ++ ['.', d1, d2])) = (c0 :: pre) ++ ['.', d1, d2] := by
      simp
    rw [happ, List.filter_append]
    have hdot : (List.filter (fun c => !(c == '$' || c == ',')) ['.', d1, d2]) =
        ['.', d1, d2] := by
      have k1 : (d1 == '$') = false := digit_beq_false hd1 (by rfl)
      have k2 : (d1 == ',') = false := digit_beq_false hd1 (by rfl)
      have k3 : (d2 == '$') = false := digit_beq_false hd2 (by rfl)
      have k4 : (d2 == ',') = false := digit_beq_false hd2 (by rfl)
      simp [List.filter, k1, k2, k3, k4]
    rw [hdot]

theorem pythonDecimalRep_digits (P : List Char) (d1 d2 : Char)
    (hP : ∀ c ∈ P, c.isDigit = true)
    (hd1 : d1.isDigit = true) (hd2 : d2.isDigit = true) :
    pythonDecimalRep (P ++ ['.', d1, d2]) =
      some (false, digitsVal (P ++ [d1, d2]), 2) := by
  have hsplit := takeWhile_digits_append [d1, d2] P hP
  have hneg : (match P ++ ['.', d1, d2] with
      | c :: _ => c == '-'
      | [] => false) = false := by
    cases P with
    | nil => rfl
    | cons a l =>
        have ha := hP a (by simp)
        simpa using @digit_beq_false a ha '-' (by rfl)
  have hplus : (match P ++ ['.', d1, d2] with
      | c :: _ => c == '+'
      | [] => false) = false := by
    cases P with
    | nil => rfl
    | cons a l =>
        have ha := hP a (by simp)
        simpa using @digit_beq_false a ha '+' (by rfl)
  unfold pythonDecimalRep
  rw [hneg, hplus]
  simp only [Bool.or_self, Bool.false_eq_true, if_false]
  rw [hsplit.1, hsplit.2]
  simp [hd1, hd2]

/-- C9: on every string of the money-capture shape `[\d,]+\.\d{2}` - the
only strings the extraction rules hand to `_parse_currency` (after the
calling rule strips an optional minus sign, and before it applies any
negation) - `_parse_currency` is total: stripping dollar signs and commas
leaves a valid decimal literal, the conversion succeeds, and the value is
a non-negative multiple of one hundredth (exactly two fractional digits). -/
theorem parse_currency_safe (s : String) (h : isAmountCapture s = true) :
    ∃ n : ℕ, parseCurrency s = some ((n : ℚ) / 100) := by
  unfold isAmountCapture at h
  cases hd : s.data with
  | nil => rw [hd] at h; exact absurd h (by simp)
  | cons c0 tail =>
      rw [hd] at h
      rw [Bool.and_eq_true] at h
      obtain ⟨hc0, htail⟩ := h
      obtain ⟨pre, d1, d2, heq, hall, hd1, hd2⟩ := amountCaptureTail_decomp tail htail
      have hc0' : c0.isDigit = true ∨ c0 = ',' := by
        rw [Bool.or_eq_true] at hc0
        rcases hc0 with h1 | h1
        · exact Or.inl h1
        · exact Or.inr (by simpa using h1)
      obtain ⟨P, hPdig, hfilter⟩ := clean_amount_capture hc0' hall hd1 hd2
      refine ⟨digitsVal (P ++ [d1, d2]), ?_⟩
      unfold parseCurrency cleanChars pythonDecimalChars
      rw [hd, heq, hfilter, pythonDecimalRep_digits P d1 d2 hPdig hd1 hd2]
      simp only [Option.map_some']
      unfold repVal
      norm_num

/-- C9 witness: the capture `1,234.56` is of the money-capture shape and
parses to a non-negative two-fractional-digit value. -/
theorem parse_currency_safe_witness :
    isAmountCapture "1,234.56" = true ∧
    ∃ n : ℕ, parseCurrency "1,234.56" = some ((n : ℚ) / 100) :=
  ⟨by decide, parse_currency_safe "1,234.56" (by decide)⟩

/-! ## C10: every M Holdings overview field is unconditionally assigned -/

theorem hasField_insert_self (k : String) (v : Value) (m : FieldMap) :
    hasField (fmInsert k v m) k = true := by
  simp [hasField, fmInsert, List.lookup]

theorem hasField_insert_of {k : String} (k2 : String) (v : Value)
    {m : FieldMap} (h : hasField m k = true) :
    hasField (fmInsert k2 v m) k = true := by
  unfold hasField fmInsert at *
  rw [List.lookup]
  cases hk : k == k2 with
  | true => rfl
  | false => simpa using h

theorem except_bind_ok {α β : Type} {x : Except PyErr α}
    {f : α → Except PyErr β} {b : β} (h : (x >>= f) = Except.ok b) :
    ∃ a, x = Except.ok a ∧ f a = Except.ok b := by
  cases x with
  | error e => exact absurd h (by simp [Bind.bind, Except.bind])
  | ok a => exact ⟨a, rfl, by simpa [Bind.bind, Except.bind] using h⟩

theorem mhStepAccount_pres (o : MHOracle) (m : FieldMap) :
    ∀ k, hasField m k = true → hasField (mhStepAccount o m) k = true := by
  intro k hk
  unfold mhStepAccount
  cases o.accountCap with
  | some c => exact hasField_insert_of _ _ hk
  | none => exact hk

theorem mhStepPeriod_pres (o : MHOracle) (m : FieldMap) :
    ∀ k, hasField m k = true → hasField (mhStepPeriod o m) k = true := by
  intro k hk
  unfold mhStepPeriod
  have hm1 : ∀ m1 : FieldMap, hasField m1 k = true →
      hasField (if hasField m1 "statement_date" then m1
        else match o.asOfDate with
          | some (some d) =>
              fmInsert "period_end" (Value.vDate d)
                (fmInsert "statement_date" (Value.vDate d) m1)
          | _ => m1) k = true := by
    intro m1 h1
    split
    · exact h1
    · split
      · exact hasField_insert_of _ _ (hasField_insert_of _ _ h1)
      · exact h1
  apply hm1
  cases o.periodDates with
  | none => exact hk
  | some pd =>
      obtain ⟨a, b⟩ := pd
      cases a with
      | none => exact hk
      | some ps =>
          cases b with
          | none => exact hasField_insert_of _ _ hk
          | some pe =>
              exact hasField_insert_of _ _
                (hasField_insert_of _ _ (hasField_insert_of _ _ hk))

theorem mhStepBeginning_ok {o : MHOracle} {m m' : FieldMap}
    (h : mhStepBeginning o m = Except.ok m') :
    (∀ k, hasField m k = true → hasField m' k = true) ∧
    hasField m' "beginning_value" = true := by
  unfold mhStepBeginning at h
  cases hcap : o.beginningCap with
  | some c =>
      rw [hcap] at h
      obtain ⟨q, hq, h2⟩ := except_bind_ok h
      have hm : m' = fmInsert "beginning_value" (Value.vMoney q) m := by
        simpa [Pure.pure, Except.pure] using h2.symm
      subst hm
      exact ⟨fun k hk => hasField_insert_of _ _ hk, hasField_insert_self _ _ _⟩
  | none =>
      rw [hcap] at h
      have hm : m' = fmInsert "beginning_value" (Value.vMoney 0) m := by
        simpa [Pure.pure, Except.pure] using h.symm
      subst hm
      exact ⟨fun k hk => hasField_insert_of _ _ hk, hasField_insert_self _ _ _⟩

theorem mhStepEnding_ok {o : MHOracle} {m m' : FieldMap}
    (h : mhStepEnding o m = Except.ok m') :
    ∀ k, hasField m k = true → hasField m' k = true := by
  unfold mhStepEnding at h
  cases hcap : o.endingCap1 with
  | some c =>
      rw [hcap] at h
      obtain ⟨q, hq, h2⟩ := except_bind_ok h
      have hm : m' = fmInsert "ending_value" (Value.vMoney q) m := by
        simpa [Pure.pure, Except.pure] using h2.symm
      subst hm
      exact fun k hk => hasField_insert_of _ _ hk
  | none =>
      rw [hcap] at h
      cases hcap2 : o.endingCap2 with
      | some c =>
          rw [hcap2] at h
          obtain ⟨q, hq, h2⟩ := except_bind_ok h
          have hm : m' = fmInsert "ending_value" (Value.vMoney q) m := by
            simpa [Pure.pure, Except.pure] using h2.symm
          subst hm
          exact fun k hk => hasField_insert_of _ _ hk
      | none =>
          rw [hcap2] at h
          have hm : m' = m := by
            simpa [Pure.pure, Except.pure] using h.symm
          subst hm
          exact fun _ hk => hk

theorem mhStepAdditions_ok {o : MHOracle} {m m' : FieldMap}
    (h : mhStepAdditions o m = Except.ok m') :
    (∀ k, hasField m k = true → hasField m' k = true) ∧
    hasField m' "deposits" = true ∧ hasField m' "withdrawals" = true := by
  unfold mhStepAdditions at h
  cases hcap : o.additionsPosCap with
  | some c =>
      rw [hcap] at h
      obtain ⟨q, hq, h2⟩ := except_bind_ok h
      have hm : m' = fmInsert "withdrawals" (Value.vMoney 0)
          (fmInsert "deposits" (Value.vMoney q) m) := by
        simpa [Pure.pure, Except.pure] using h2.symm
      subst hm
      exact ⟨fun k hk => hasField_insert_of _ _ (hasField_insert_of _ _ hk),
        hasField_insert_of _ _ (hasField_insert_self _ _ _),
        hasField_insert_self _ _ _⟩
  | none =>
      rw [hcap] at h
      cases hcap2 : o.additionsParenCap with
      | some c =>
          rw [hcap2] at h
          obtain ⟨q, hq, h2⟩ := except_bind_ok h
          have hm : m' = fmInsert "withdrawals" (Value.vMoney q)
              (fmInsert "deposits" (Value.vMoney 0) m) := by
            simpa [Pure.pure, Except.pure] using h2.symm
          subst hm
          exact ⟨fun k hk => hasField_insert_of _ _ (hasField_insert_of _ _ hk),
            hasField_insert_of _ _ (hasField_insert_self _ _ _),
            hasField_insert_self _ _ _⟩
      | none =>
          rw [hcap2] at h
          have hm : m' = fmInsert "withdrawals" (Value.vMoney 0)
              (fmInsert "deposits" (Value.vMoney 0) m) := by
            simpa [Pure.pure, Except.pure] using h.symm
          subst hm
          exact ⟨fun k hk => hasField_insert_of _ _ (hasField_insert_of _ _ hk),
            hasField_insert_of _ _ (hasField_insert_self _ _ _),
            hasField_insert_self _ _ _⟩

theorem mhIncomeSection_ok {o : MHOracle} {m1 m' : FieldMap} {inc : ℚ}
    (h : mhIncomeSection o m1 inc = Except.ok m') :
    (∀ k, hasField m1 k = true → hasField m' k = true) ∧
    hasField m' "dividends" = true ∧ hasField m' "interest" = true := by
  unfold mhIncomeSection at h
  cases hsec : o.incomeSectionFound with
  | false =>
      rw [hsec] at h
      simp only [Bool.false_eq_true, if_false] at h
      have hm : m' = fmInsert "interest" (Value.vMoney 0)
          (fmInsert "dividends" (Value.vMoney inc) m1) := by
        simpa [Pure.pure, Except.pure] using h.symm
      subst hm
      exact ⟨fun k hk =>
          hasField_insert_of _ _ (hasField_insert_of _ _ hk),
        hasField_insert_of _ _ (hasField_insert_self _ _ _),
        hasField_insert_self _ _ _⟩
  | true =>
      rw [hsec] at h
      simp only [if_true] at h
      obtain ⟨dv, hdv, h3⟩ := except_bind_ok h
      obtain ⟨ir, hir, h4⟩ := except_bind_ok h3
      by_cases hz : dv = 0 ∧ ir = 0 ∧ 0 < inc
      · rw [if_pos hz] at h4
        have hm : m' = fmInsert "dividends" (Value.vMoney inc)
            (fmInsert "interest" (Value.vMoney ir)
              (fmInsert "dividends" (Value.vMoney dv) m1)) := by
          simpa [Pure.pure, Except.pure] using h4.symm
        subst hm
        refine ⟨fun k hk => hasField_insert_of _ _ (hasField_insert_of _ _
          (hasField_insert_of _ _ hk)), hasField_insert_self _ _ _, ?_⟩
        exact hasField_insert_of _ _ (hasField_insert_self _ _ _)
      · rw [if_neg hz] at h4
        have hm : m' = fmInsert "interest" (Value.vMoney ir)
            (fmInsert "dividends" (Value.vMoney dv) m1) := by
          simpa [Pure.pure, Except.pure] using h4.symm
        subst hm
        exact ⟨fun k hk =>
            hasField_insert_of _ _ (hasField_insert_of _ _ hk),
          hasField_insert_of _ _ (hasField_insert_self _ _ _),
          hasField_insert_self _ _ _⟩

theorem mhStepIncome_ok {o : MHOracle} {m m' : FieldMap}
    (h : mhStepIncome o m = Except.ok m') :
    (∀ k, hasField m k = true → hasField m' k = true) ∧
    hasField m' "dividends" = true ∧ hasField m' "interest" = true := by
  unfold mhStepIncome at h
  obtain ⟨p, hp, h2⟩ := except_bind_ok h
  have hpres1 : ∀ k, hasField m k = true → hasField p.1 k = true := by
    intro k hk
    unfold mhIncomeVal at hp
    cases hcap : o.incomeCap with
    | some c =>
        rw [hcap] at hp
        obtain ⟨v, hv, hp2⟩ := except_bind_ok hp
        have hpv : p = (fmInsert "total_income" (Value.vMoney v) m, v) := by
          simpa [Pure.pure, Except.pure] using hp2.symm
        rw [hpv]
        exact hasField_insert_of _ _ hk
    | none =>
        rw [hcap] at hp
        have hpv : p = (m, (0 : ℚ)) := by
          simpa [Pure.pure, Except.pure] using hp.symm
        rw [hpv]
        exact hk
  obtain ⟨hs1, hs2, hs3⟩ := mhIncomeSection_ok h2
  exact ⟨fun k hk => hs1 k (hpres1 k hk), hs2, hs3⟩

theorem mhStepChange_ok {o : MHOracle} {m m' : FieldMap}
    (h : mhStepChange o m = Except.ok m') :
    (∀ k, hasField m k = true → hasField m' k = true) ∧
    hasField m' "market_change" = true := by
  unfold mhStepChange at h
  obtain ⟨q, hq, h2⟩ := except_bind_ok h
  have hm : m' = fmInsert "market_change" (Value.vMoney q) m := by
    simpa [Pure.pure, Except.pure] using h2.symm
  subst hm
  exact ⟨fun k hk => hasField_insert_of _ _ hk, hasField_insert_self _ _ _⟩

theorem mhStepFees_ok {o : MHOracle} {m m' : FieldMap}
    (h : mhStepFees o m = Except.ok m') :
    (∀ k, hasField m k = true → hasField m' k = true) ∧
    hasField m' "fees" = true := by
  unfold mhStepFees at h
  cases hcap : o.feePosCap with
  | some c =>
      rw [hcap] at h
      obtain ⟨q, hq, h2⟩ := except_bind_ok h
      have hm : m' = fmInsert "fees" (Value.vMoney q) m := by
        simpa [Pure.pure, Except.pure] using h2.symm
      subst hm
      exact ⟨fun k hk => hasField_insert_of _ _ hk, hasField_insert_self _ _ _⟩
  | none =>
      rw [hcap] at h
      cases hcap2 : o.feeParenCap with
      | some c =>
          rw [hcap2] at h
          obtain ⟨q, hq, h2⟩ := except_bind_ok h
          have hm : m' = fmInsert "fees" (Value.vMoney q) m := by
            simpa [Pure.pure, Except.pure] using h2.symm
          subst hm
          exact ⟨fun k hk => hasField_insert_of _ _ hk, hasField_insert_self _ _ _⟩
      | none =>
          rw [hcap2] at h
          have hm : m' = fmInsert "fees" (Value.vMoney 0) m := by
            simpa [Pure.pure, Except.pure] using h.symm
          subst hm
          exact ⟨fun k hk => hasField_insert_of _ _ hk, hasField_insert_self _ _ _⟩

theorem mhStepMisc_ok {o : MHOracle} {m m' : FieldMap}
    (h : mhStepMisc o m = Except.ok m') :
    (∀ k, hasField m k = true → hasField m' k = true) ∧
    hasField m' "other_activity" = true := by
  unfold mhStepMisc at h
  obtain ⟨q, hq, h2⟩ := except_bind_ok h
  have hm : m' = fmInsert "other_activity" (Value.vMoney q) m := by
    simpa [Pure.pure, Except.pure] using h2.symm
  subst hm
  exact ⟨fun k hk => hasField_insert_of _ _ hk, hasField_insert_self _ _ _⟩

theorem mhAllocLine_pres {field : String} {cap : Option String} {ev : ℚ}
    {m m' : FieldMap} (h : mhAllocLine field cap ev m = Except.ok m') :
    ∀ k, hasField m k = true → hasField m' k = true := by
  unfold mhAllocLine at h
  intro k hk
  cases cap with
  | some c =>
      have h' : (if 0 < ev then
          (pyDecE c) >>= (fun p =>
            pure (fmInsert field (Value.vMoney (quantizeCents (ev * p / 100))) m))
        else pure (fmInsert field Value.vNone m) :
          Except PyErr FieldMap) = Except.ok m' := h
      by_cases hev : 0 < ev
      · rw [if_pos hev] at h'
        obtain ⟨q, hq, h2⟩ := except_bind_ok h'
        have hm : m' = fmInsert field (Value.vMoney (quantizeCents (ev * q / 100))) m := by
          simpa [Pure.pure, Except.pure] using h2.symm
        subst hm
        exact hasField_insert_of _ _ hk
      · rw [if_neg hev] at h'
        have hm : m' = fmInsert field Value.vNone m := by
          simpa [Pure.pure, Except.pure] using h'.symm
        subst hm
        exact hasField_insert_of _ _ hk
  | none =>
      have hm : m' = fmInsert field Value.vNone m := by
        simpa [Pure.pure, Except.pure] using h.symm
      subst hm
      exact hasField_insert_of _ _ hk

theorem mhStepAllocation_pres {o : MHOracle} {m m' : FieldMap}
    (h : mhStepAllocation o m = Except.ok m') :
    ∀ k, hasField m k = true → hasField m' k = true := by
  unfold mhStepAllocation at h
  intro k hk
  cases hf : o.allocationFound with
  | true =>
      rw [hf] at h
      simp only [if_true] at h
      obtain ⟨ev, hev, h2⟩ := except_bind_ok h
      obtain ⟨m1, hm1, h3⟩ := except_bind_ok h2
      obtain ⟨m2, hm2, h4⟩ := except_bind_ok h3
      exact mhAllocLine_pres h4 k
        (mhAllocLine_pres hm2 k (mhAllocLine_pres hm1 k hk))
  | false =>
      rw [hf] at h
      simp only [Bool.false_eq_true, if_false] at h
      have hm : m' = fmInsert "fixed_income" Value.vNone
          (fmInsert "equities" Value.vNone
            (fmInsert "money_market" Value.vNone m)) := by
        simpa [Pure.pure, Except.pure] using h.symm
      subst hm
      exact hasField_insert_of _ _ (hasField_insert_of _ _
        (hasField_insert_of _ _ hk))

/-- C10: whenever `MHoldingsBrokerageParser.parse` returns a field map,
every required Family C field except `statement_date` and `ending_value` -
and additionally `capital_gains` and `other_activity` - is present
(unconditionally assigned, defaulting to zero when its pattern did not
match), so `validate` can report a missing-required-field error only for
`statement_date` or `ending_value`. -/
theorem mh_overview_fields_present {o : MHOracle} {m : FieldMap}
    (h : mhParse o = Except.ok m) :
    (∀ f ∈ ["beginning_value", "deposits", "withdrawals", "dividends",
      "interest", "market_change", "fees", "capital_gains", "other_activity"],
      hasField m f = true) ∧
    (∀ f ∈ missingFields requiredC m,
      f = "statement_date" ∨ f = "ending_value") := by
  unfold mhParse at h
  obtain ⟨m1, h1, h⟩ := except_bind_ok h
  obtain ⟨m2, h2, h⟩ := except_bind_ok h
  obtain ⟨m3, h3, h⟩ := except_bind_ok h
  obtain ⟨m4, h4, h⟩ := except_bind_ok h
  obtain ⟨m5, h5, h⟩ := except_bind_ok h
  obtain ⟨m6, h6, h⟩ := except_bind_ok h
  obtain ⟨m7, h7, h⟩ := except_bind_ok h
  obtain ⟨hb1, hb2⟩ := mhStepBeginning_ok h1
  have he := mhStepEnding_ok h2
  obtain ⟨ha1, ha2, ha3⟩ := mhStepAdditions_ok h3
  obtain ⟨hi1, hi2, hi3⟩ := mhStepIncome_ok h4
  obtain ⟨hc1, hc2⟩ := mhStepChange_ok h5
  obtain ⟨hf1, hf2⟩ := mhStepFees_ok h6
  obtain ⟨hx1, hx2⟩ := mhStepMisc_ok h7
  have hcg : hasField (mhStepCapitalGains m7) "capital_gains" = true :=
    hasField_insert_self _ _ _
  have hcgp : ∀ k, hasField m7 k = true →
      hasField (mhStepCapitalGains m7) k = true :=
    fun k hk => hasField_insert_of _ _ hk
  have hal := mhStepAllocation_pres h
  have pbeg : hasField m "beginning_value" = true :=
    hal _ (hcgp _ (hx1 _ (hf1 _ (hc1 _ (hi1 _ (ha1 _ (he _ hb2)))))))
  have pdep : hasField m "deposits" = true :=
    hal _ (hcgp _ (hx1 _ (hf1 _ (hc1 _ (hi1 _ ha2)))))
  have pwit : hasField m "withdrawals" = true :=
    hal _ (hcgp _ (hx1 _ (hf1 _ (hc1 _ (hi1 _ ha3)))))
  have pdiv : hasField m "dividends" = true :=
    hal _ (hcgp _ (hx1 _ (hf1 _ (hc1 _ hi2))))
  have pint : hasField m "interest" = true :=
    hal _ (hcgp _ (hx1 _ (hf1 _ (hc1 _ hi3))))
  have pmc : hasField m "market_change" = true :=
    hal _ (hcgp _ (hx1 _ (hf1 _ hc2)))
  have pfee : hasField m "fees" = true :=
    hal _ (hcgp _ (hx1 _ hf2))
  have pcg : hasField m "capital_gains" = true :=
    hal _ hcg
  have poa : hasField m "other_activity" = true :=
    hal _ (hcgp _ hx2)
  refine ⟨?_, ?_⟩
  · intro f hf
    simp only [List.mem_cons, List.not_mem_nil, or_false] at hf
    rcases hf with rfl | rfl | rfl | rfl | rfl | rfl | rfl | rfl | rfl <;>
      assumption
  · intro f hf
    obtain ⟨hmem, hnot⟩ := List.mem_filter.mp hf
    simp only [requiredC, List.mem_cons, List.not_mem_nil, or_false] at hmem
    rcases hmem with rfl | rfl | rfl | rfl | rfl | rfl | rfl | rfl | rfl
    · exact Or.inl rfl
    · rw [pbeg] at hnot; exact absurd hnot (by simp)
    · exact Or.inr rfl
    · rw [pdep] at hnot; exact absurd hnot (by simp)
    · rw [pwit] at hnot; exact absurd hnot (by simp)
    · rw [pdiv] at hnot; exact absurd hnot (by simp)
    · rw [pint] at hnot; exact absurd hnot (by simp)
    · rw [pmc] at hnot; exact absurd hnot (by simp)
    · rw [pfee] at hnot; exact absurd hnot (by simp)

/-- C10 witness: the document where no overview pattern matches still
yields a field map carrying all nine overview fields, and its only
possible missing-required-field errors are the two the claim names. -/
theorem mh_overview_fields_present_witness :
    (∀ f ∈ ["beginning_value", "deposits", "withdrawals", "dividends",
      "interest", "market_change", "fees", "capital_gains", "other_activity"],
      hasField
        [("fixed_income", Value.vNone), ("equities", Value.vNone),
         ("money_market", Value.vNone), ("capital_gains", Value.vMoney 0),
         ("other_activity", Value.vMoney 0), ("fees", Value.vMoney 0),
         ("market_change", Value.vMoney 0), ("interest", Value.vMoney 0),
         ("dividends", Value.vMoney 0), ("withdrawals", Value.vMoney 0),
         ("deposits", Value.vMoney 0), ("beginning_value", Value.vMoney 0)]
        f = true) ∧
    (∀ f ∈ missingFields requiredC
        [("fixed_income", Value.vNone), ("equities", Value.vNone),
         ("money_market", Value.vNone), ("capital_gains", Value.vMoney 0),
         ("other_activity", Value.vMoney 0), ("fees", Value.vMoney 0),
         ("market_change", Value.vMoney 0), ("interest", Value.vMoney 0),
         ("dividends", Value.vMoney 0), ("withdrawals", Value.vMoney 0),
         ("deposits", Value.vMoney 0), ("beginning_value", Value.vMoney 0)],
      f = "statement_date" ∨ f = "ending_value") :=
  @mh_overview_fields_present
    ⟨none, none, none, none, none, none, none, none, none, false,
      none, none, none, none, none, none, none, none, false,
      none, none, none⟩
    [("fixed_income", Value.vNone), ("equities", Value.vNone),
     ("money_market", Value.vNone), ("capital_gains", Value.vMoney 0),
     ("other_activity", Value.vMoney 0), ("fees", Value.vMoney 0),
     ("market_change", Value.vMoney 0), ("interest", Value.vMoney 0),
     ("dividends", Value.vMoney 0), ("withdrawals", Value.vMoney 0),
     ("deposits", Value.vMoney 0), ("beginning_value", Value.vMoney 0)]
    (by rfl)

end Investco
